import Mathlib

/-!
Verification development for the football_ml in-play decision and cash-out
monitoring engine.  The Python sources are shallowly embedded: Python strings
become `List Char`, Python floats become `ℚ` (with a dedicated model of the
decimal rendering used in f-strings), Python dicts become association lists,
and exception-driven control flow becomes `Option`/`Except` values.
-/

set_option maxRecDepth 4000

namespace FootballML

/-- Python strings are modelled as lists of characters. -/
abbrev PyStr := List Char

/-- Coerce a Lean string literal into the Python string model. -/
def pys (s : String) : PyStr := s.data

/-! ### Decimal digits: printing and parsing

Python renders non-negative integers in decimal (`str(n)` / f-strings) and
parses them with `int(...)`.  We model both directions explicitly so that
round-trip facts can be proved. -/

/-- The decimal digit character for a digit value (values ≥ 9 clamp to `'9'`;
only ever applied to values < 10). -/
def digitChar (d : ℕ) : Char :=
  if d = 0 then '0' else if d = 1 then '1' else if d = 2 then '2'
  else if d = 3 then '3' else if d = 4 then '4' else if d = 5 then '5'
  else if d = 6 then '6' else if d = 7 then '7' else if d = 8 then '8' else '9'

/-- Little-endian list of decimal digit values of a natural number
(`0` maps to the empty list). -/
def natDigitsLE : ℕ → List ℕ
  | 0 => []
  | n + 1 => ((n + 1) % 10) :: natDigitsLE ((n + 1) / 10)
decreasing_by exact Nat.div_lt_self (Nat.succ_pos n) (by omega)

/-- Decimal rendering of a natural number, as Python's `str` produces it. -/
def natToStr (n : ℕ) : PyStr :=
  if n = 0 then ['0'] else ((natDigitsLE n).map digitChar).reverse

/-- Decimal rendering of an integer, as Python's `str` produces it. -/
def intToStr (z : ℤ) : PyStr :=
  if z < 0 then '-' :: natToStr (-z).toNat else natToStr z.toNat

/-- Numeric value of a decimal digit character (Python's per-character
`int` semantics: code point minus 48). -/
def charToDigit (c : Char) : ℕ := c.toNat - 48

/-- Model of Python's ASCII decimal-digit test (`str.isdigit` on the data
this engine consumes). -/
def pyIsDigit (c : Char) : Bool := 48 ≤ c.toNat && c.toNat ≤ 57

/-- Value of a big-endian string of decimal digit characters. -/
def parseNatCore (l : PyStr) : ℕ :=
  l.foldl (fun a c => 10 * a + charToDigit c) 0

/-- One space character test. -/
def isSpaceCh (c : Char) : Bool := c = ' '

/-- Python `str.strip()` restricted to the space character (the only
whitespace that occurs in the data this engine consumes). -/
def stripWs (l : PyStr) : PyStr :=
  ((l.dropWhile isSpaceCh).reverse.dropWhile isSpaceCh).reverse

/-- Model of Python `int(s)` on a string: strip whitespace, allow one
optional sign, then require a non-empty run of decimal digits.
(`None` models the `ValueError` raised otherwise; numeric-literal
underscores are not modelled.) -/
def pyParseInt (l : PyStr) : Option ℤ :=
  let t := stripWs l
  let core : PyStr → Option ℤ := fun ds =>
    if ds ≠ [] ∧ ds.all pyIsDigit then some (parseNatCore ds : ℤ) else none
  if t.head? = some '+' then core t.tail
  else if t.head? = some '-' then (core t.tail).map (fun z => -z)
  else core t

/-! Basic facts about digit printing/parsing. -/

theorem digitChar_isDigit (d : ℕ) : pyIsDigit (digitChar d) = true := by
  unfold digitChar
  repeat' split
  all_goals decide

theorem charToDigit_digitChar {d : ℕ} (h : d < 10) :
    charToDigit (digitChar d) = d := by
  interval_cases d <;> decide

theorem natDigitsLE_lt_ten (n : ℕ) : ∀ d ∈ natDigitsLE n, d < 10 := by
  induction n using Nat.strong_induction_on with
  | _ n ih =>
    match n with
    | 0 => intro d hd; simp [natDigitsLE] at hd
    | m + 1 =>
      intro d hd
      rw [natDigitsLE] at hd
      rcases List.mem_cons.mp hd with h | h
      · subst h; exact Nat.mod_lt _ (by omega)
      · exact ih ((m + 1) / 10) (Nat.div_lt_self (Nat.succ_pos m) (by omega)) d h

/-- Little-endian digit value. -/
def valLE : List ℕ → ℕ
  | [] => 0
  | d :: ds => d + 10 * valLE ds

theorem valLE_natDigitsLE (n : ℕ) : valLE (natDigitsLE n) = n := by
  induction n using Nat.strong_induction_on with
  | _ n ih =>
    match n with
    | 0 => simp [natDigitsLE, valLE]
    | m + 1 =>
      rw [natDigitsLE, valLE,
        ih ((m + 1) / 10) (Nat.div_lt_self (Nat.succ_pos m) (by omega))]
      omega

theorem parseNatCore_rev_digits (ds : List ℕ) (hds : ∀ d ∈ ds, d < 10) (a : ℕ) :
    List.foldl (fun a c => 10 * a + charToDigit c) a ((ds.map digitChar).reverse)
      = a * 10 ^ ds.length + valLE ds := by
  induction ds generalizing a with
  | nil => simp [valLE]
  | cons d ds ih =>
    have hd : d < 10 := hds d (List.mem_cons_self d ds)
    have hds' : ∀ x ∈ ds, x < 10 := fun x hx => hds x (List.mem_cons_of_mem d hx)
    simp only [List.map_cons, List.reverse_cons, List.foldl_append, List.foldl_cons,
      List.foldl_nil, ih hds', valLE, charToDigit_digitChar hd, List.length_cons]
    ring

theorem parseNatCore_natToStr (n : ℕ) : parseNatCore (natToStr n) = n := by
  by_cases h : n = 0
  · subst h; decide
  · unfold natToStr parseNatCore
    rw [if_neg h, parseNatCore_rev_digits (natDigitsLE n) (natDigitsLE_lt_ten n) 0]
    simp [valLE_natDigitsLE]

theorem natToStr_all_digits (n : ℕ) : (natToStr n).all pyIsDigit = true := by
  unfold natToStr
  split
  · decide
  · simp only [List.all_eq_true, List.mem_reverse, List.mem_map]
    rintro c ⟨d, _, rfl⟩
    exact digitChar_isDigit d

theorem natToStr_ne_nil (n : ℕ) : natToStr n ≠ [] := by
  unfold natToStr
  split
  · simp
  · simp only [ne_eq, List.reverse_eq_nil_iff, List.map_eq_nil_iff]
    intro hc
    have := valLE_natDigitsLE n
    rw [hc] at this
    simp [valLE] at this
    omega

theorem mem_natToStr_isDigit {n : ℕ} {c : Char} (hc : c ∈ natToStr n) :
    pyIsDigit c = true := by
  have := natToStr_all_digits n
  rw [List.all_eq_true] at this
  exact this c hc

theorem digit_not_space {c : Char} (h : pyIsDigit c = true) : isSpaceCh c = false := by
  unfold isSpaceCh
  simp only [decide_eq_false_iff_not]
  intro hc
  subst hc
  exact absurd h (by decide)

theorem stripWs_no_space {l : PyStr} (h : ∀ c ∈ l, isSpaceCh c = false) :
    stripWs l = l := by
  unfold stripWs
  have h1 : l.dropWhile isSpaceCh = l := by
    cases l with
    | nil => rfl
    | cons c cs =>
      rw [List.dropWhile_cons, h c (List.mem_cons_self c cs)]
      simp
  rw [h1]
  have h2 : l.reverse.dropWhile isSpaceCh = l.reverse := by
    cases hr : l.reverse with
    | nil => rfl
    | cons c cs =>
      rw [List.dropWhile_cons]
      have hc : c ∈ l := by
        rw [← List.mem_reverse, hr]; exact List.mem_cons_self c cs
      rw [h c hc]
      simp
  rw [h2, List.reverse_reverse]

theorem stripWs_of_all_digits {l : PyStr} (h : l.all pyIsDigit = true) :
    stripWs l = l := by
  rw [List.all_eq_true] at h
  exact stripWs_no_space (fun c hc => digit_not_space (h c hc))

theorem pyParseInt_natToStr (n : ℕ) : pyParseInt (natToStr n) = some (n : ℤ) := by
  unfold pyParseInt
  rw [stripWs_of_all_digits (natToStr_all_digits n)]
  have hne : natToStr n ≠ [] := natToStr_ne_nil n
  cases hl : natToStr n with
  | nil => exact absurd hl hne
  | cons c cs =>
    have hc : pyIsDigit c = true := by
      apply mem_natToStr_isDigit (n := n); rw [hl]; exact List.mem_cons_self c cs
    have hplus : c ≠ '+' := by
      intro h; rw [h] at hc; exact absurd hc (by decide)
    have hminus : c ≠ '-' := by
      intro h; rw [h] at hc; exact absurd hc (by decide)
    simp only [List.head?_cons, Option.some.injEq]
    rw [if_neg (by simpa using hplus), if_neg (by simpa using hminus)]
    have hall : (c :: cs).all pyIsDigit = true := by rw [← hl]; exact natToStr_all_digits n
    simp only [ne_eq, reduceCtorEq, not_false_eq_true, hall, and_true, if_true]
    rw [← hl, parseNatCore_natToStr]

/-! ### String scanning helpers (models of Python `str` operations) -/

/-- `startsWith l p` : does `l` start with pattern `p`?  (Python
`str.startswith`.) -/
def startsWith : PyStr → PyStr → Bool
  | _, [] => true
  | [], _ :: _ => false
  | c :: cs, p :: ps => c = p && startsWith cs ps

/-- Python substring containment (`sub in s`), for non-empty `sub`. -/
def containsSub : PyStr → PyStr → Bool
  | [], sub => startsWith [] sub
  | c :: rest, sub => startsWith (c :: rest) sub || containsSub rest sub

/-- Python `s.split(sep)` for a single-character separator `sep`
(keeps empty pieces, like Python). -/
def splitChar (sep : Char) : PyStr → List PyStr
  | [] => [[]]
  | c :: rest =>
    if c = sep then [] :: splitChar sep rest
    else (splitChar sep rest).modifyHead (c :: ·)

/-- Python `s.split(" - ")`: split on the three-character separator,
scanning left to right, non-overlapping. -/
def splitDashSp : PyStr → List PyStr
  | [] => [[]]
  | [c] => [[c]]
  | [c, d] => [[c, d]]
  | c :: d :: e :: rest =>
    if c = ' ' ∧ d = '-' ∧ e = ' ' then [] :: splitDashSp rest
    else (splitDashSp (d :: e :: rest)).modifyHead (c :: ·)

/-- The fixed point of the source's
`while "  " in s: s = s.replace("  ", " ")` loop: every run of spaces is
collapsed to a single space. -/
def collapseSpaces : PyStr → PyStr
  | [] => []
  | [c] => [c]
  | a :: b :: rest =>
    if a = ' ' ∧ b = ' ' then collapseSpaces (b :: rest)
    else a :: collapseSpaces (b :: rest)

/-- `score.replace("-", " - ")`: Python `str.replace` scans the original
string left to right, so each `'-'` becomes `" - "` and the replacement
text is not rescanned. -/
def replaceDash (l : PyStr) : PyStr :=
  l.foldr (fun c acc => if c = '-' then ' ' :: '-' :: ' ' :: acc else c :: acc) []

/-- Python `s.split()` (no separator): split on runs of spaces, dropping
empty pieces. -/
def splitWs : PyStr → List PyStr
  | [] => []
  | c :: rest =>
    if c = ' ' then splitWs rest
    else (c :: rest.takeWhile (fun x => ¬ x = ' ')) ::
      splitWs (rest.dropWhile (fun x => ¬ x = ' '))
termination_by l => l.length
decreasing_by
  · exact Nat.lt_succ_of_le (Nat.le_refl _)
  · exact Nat.lt_succ_of_le ((List.dropWhile_sublist _).length_le)

/-- First-match association-list lookup (model of a Python dict read;
the dicts we model are built without duplicate keys). -/
def lookupKey {α : Type} (m : List (PyStr × α)) (k : PyStr) : Option α :=
  match m with
  | [] => none
  | (k', v) :: rest => if k' = k then some v else lookupKey rest k

/-! Lemmas about the scanning helpers. -/

theorem startsWith_append (p l : PyStr) : startsWith (p ++ l) p = true := by
  induction p with
  | nil => cases l <;> rfl
  | cons c cs ih => simp [startsWith, ih]

theorem containsSub_cons (c : Char) (l sub : PyStr) :
    containsSub (c :: l) sub = (startsWith (c :: l) sub || containsSub l sub) :=
  rfl

theorem containsSub_of_startsWith {l sub : PyStr} (h : startsWith l sub = true) :
    containsSub l sub = true := by
  cases l with
  | nil => exact h
  | cons c cs => rw [containsSub_cons, h, Bool.true_or]

theorem containsSub_of_append (l1 sub l2 : PyStr) :
    containsSub (l1 ++ sub ++ l2) sub = true := by
  induction l1 with
  | nil =>
    simp only [List.nil_append]
    exact containsSub_of_startsWith (startsWith_append sub l2)
  | cons c cs ih =>
    simp only [List.cons_append] at ih ⊢
    rw [containsSub_cons, ih, Bool.or_true]

theorem splitDashSp_cons_nonspace {c : Char} (hc : c ≠ ' ') (l : PyStr) :
    splitDashSp (c :: l) = (splitDashSp l).modifyHead (c :: ·) := by
  match l with
  | [] => rfl
  | [d] => rfl
  | d :: e :: rest =>
    rw [splitDashSp, if_neg (by intro hcc; exact hc hcc.1)]

theorem splitDashSp_no_space {l : PyStr} (h : ∀ c ∈ l, c ≠ ' ') :
    splitDashSp l = [l] := by
  induction l with
  | nil => rfl
  | cons c cs ih =>
    rw [splitDashSp_cons_nonspace (h c (List.mem_cons_self c cs)),
      ih (fun x hx => h x (List.mem_cons_of_mem c hx))]
    rfl

theorem splitDashSp_sep (l1 l2 : PyStr) (h : ∀ c ∈ l1, c ≠ ' ') :
    splitDashSp (l1 ++ ' ' :: '-' :: ' ' :: l2) = l1 :: splitDashSp l2 := by
  induction l1 with
  | nil => rw [List.nil_append, splitDashSp, if_pos ⟨rfl, rfl, rfl⟩]
  | cons c cs ih =>
    rw [List.cons_append,
      splitDashSp_cons_nonspace (h c (List.mem_cons_self c cs)),
      ih (fun x hx => h x (List.mem_cons_of_mem c hx))]
    rfl

theorem splitChar_no_sep {sep : Char} {l : PyStr} (h : ∀ c ∈ l, c ≠ sep) :
    splitChar sep l = [l] := by
  induction l with
  | nil => rfl
  | cons c cs ih =>
    rw [splitChar, if_neg (h c (List.mem_cons_self c cs)),
      ih (fun x hx => h x (List.mem_cons_of_mem c hx))]
    rfl

theorem splitChar_sep (sep : Char) (l1 l2 : PyStr) (h : ∀ c ∈ l1, c ≠ sep) :
    splitChar sep (l1 ++ sep :: l2) = l1 :: splitChar sep l2 := by
  induction l1 with
  | nil => simp [splitChar]
  | cons c cs ih =>
    rw [List.cons_append, splitChar, if_neg (h c (List.mem_cons_self c cs)),
      ih (fun x hx => h x (List.mem_cons_of_mem c hx))]
    rfl

theorem collapseSpaces_cons_nonspace {a : Char} (ha : a ≠ ' ') (l : PyStr) :
    collapseSpaces (a :: l) = a :: collapseSpaces l := by
  cases l with
  | nil => rfl
  | cons b bs =>
    rw [collapseSpaces, if_neg (by intro hcc; exact ha hcc.1)]

theorem collapseSpaces_no_double {l : PyStr}
    (h : List.Chain' (fun x y => ¬(x = ' ' ∧ y = ' ')) l) :
    collapseSpaces l = l := by
  induction l with
  | nil => rfl
  | cons a rest ih =>
    cases rest with
    | nil => rfl
    | cons b bs =>
      rw [List.chain'_cons] at h
      rw [collapseSpaces, if_neg h.1, ih h.2]

/-! ### Feature Normalizer: minute extraction

Embedding of `MatchDataProcessor._extract_minute`
(src/src/match_processor.py, lines 371-400). -/

/-- ASCII model of Python `str.lower()` on one character. -/
def pyLowerCh (c : Char) : Char :=
  if 65 ≤ c.toNat ∧ c.toNat ≤ 90 then Char.ofNat (c.toNat + 32) else c

/-- Python `s.strip().lower()` (strip first, then lowercase, as in the
source). -/
def stripLower (s : PyStr) : PyStr := (stripWs s).map pyLowerCh

/-- The minute field arrives either as an int or as a string. -/
inductive MinuteInput where
  | intI (i : ℤ)
  | strI (s : PyStr)

/-- The string arm of `_extract_minute`, applied to the already
stripped/lowercased text: `"ht"`-like values map to 45, `"ft"`-like to 90,
a `'+'` splits off added time, otherwise `int(...)`; every parse failure
(`ValueError`) is caught and yields 0. -/
def extract_minute_str (t : PyStr) : ℤ :=
  if t = pys "ht" ∨ t = pys "half time" then 45
  else if t = pys "ft" ∨ t = pys "full time" then 90
  else if containsSub t ['+'] then
    match pyParseInt (t.takeWhile (fun c => ¬ c = '+')) with
    | some v => v
    | none => 0
  else
    match pyParseInt t with
    | some v => v
    | none => 0

/-- `MatchDataProcessor._extract_minute`: ints pass through; strings are
stripped, lowercased and handled by `extract_minute_str`. -/
def extract_minute (m : MinuteInput) : ℤ :=
  match m with
  | .intI i => i
  | .strI s => extract_minute_str (stripLower s)

/-! Facts needed about digit strings under `stripLower`. -/

theorem mem_natToStr_exists_digit {n : ℕ} {c : Char} (hc : c ∈ natToStr n) :
    ∃ d, d < 10 ∧ c = digitChar d := by
  unfold natToStr at hc
  split at hc
  · rcases List.mem_singleton.mp hc with rfl
    exact ⟨0, by omega, rfl⟩
  · rw [List.mem_reverse, List.mem_map] at hc
    rcases hc with ⟨d, hd, rfl⟩
    exact ⟨d, natDigitsLE_lt_ten _ d hd, rfl⟩

theorem pyLowerCh_digitChar {d : ℕ} (h : d < 10) :
    pyLowerCh (digitChar d) = digitChar d := by
  interval_cases d <;> decide

theorem pyLowerCh_of_digit {c : Char} (h : pyIsDigit c = true) :
    pyLowerCh c = c := by
  unfold pyIsDigit at h
  rw [Bool.and_eq_true, decide_eq_true_eq, decide_eq_true_eq] at h
  unfold pyLowerCh
  rw [if_neg]
  intro hc
  omega

theorem stripLower_natToStr (n : ℕ) : stripLower (natToStr n) = natToStr n := by
  unfold stripLower
  rw [stripWs_of_all_digits (natToStr_all_digits n)]
  rw [List.map_congr_left (g := id), List.map_id]
  intro c hc
  rcases mem_natToStr_exists_digit hc with ⟨d, hd, rfl⟩
  exact pyLowerCh_digitChar hd

theorem digitChar_ne_plus {d : ℕ} (h : d < 10) : digitChar d ≠ '+' := by
  interval_cases d <;> decide

theorem mem_of_containsSub {l : PyStr} {x : Char} {xs : PyStr}
    (h : containsSub l (x :: xs) = true) : x ∈ l := by
  induction l with
  | nil => simp [containsSub, startsWith] at h
  | cons c cs ih =>
    rw [containsSub_cons, Bool.or_eq_true] at h
    rcases h with h | h
    · rw [startsWith, Bool.and_eq_true, decide_eq_true_eq] at h
      rw [h.1]; exact List.mem_cons_self _ _
    · exact List.mem_cons_of_mem _ (ih h)

theorem containsSub_plus_natToStr (n : ℕ) :
    containsSub (natToStr n) ['+'] = false := by
  by_contra h
  rw [Bool.not_eq_false] at h
  rcases mem_natToStr_exists_digit (mem_of_containsSub h) with ⟨d, hd, hc⟩
  exact digitChar_ne_plus hd hc.symm

theorem natToStr_head_digit (n : ℕ) :
    ∃ c cs, natToStr n = c :: cs ∧ pyIsDigit c = true := by
  cases hl : natToStr n with
  | nil => exact absurd hl (natToStr_ne_nil n)
  | cons c cs =>
    refine ⟨c, cs, rfl, ?_⟩
    apply mem_natToStr_isDigit (n := n)
    rw [hl]; exact List.mem_cons_self c cs

theorem ne_cons_of_head_digit {c : Char} {cs : PyStr} {d : Char} {ds : PyStr}
    (hd : pyIsDigit c = true) (hnd : pyIsDigit d = false) : c :: cs ≠ d :: ds := by
  intro h
  rw [(List.cons_eq_cons.mp h).1, hnd] at hd
  exact Bool.false_ne_true hd

theorem digit_headed_not_special {l : PyStr} {c : Char} {cs : PyStr}
    (hl : l = c :: cs) (hd : pyIsDigit c = true) :
    ¬(l = pys "ht" ∨ l = pys "half time") ∧
      ¬(l = pys "ft" ∨ l = pys "full time") := by
  subst hl
  refine ⟨?_, ?_⟩
  · rintro (h | h)
    · rw [show pys "ht" = 'h' :: pys "t" from rfl] at h
      exact ne_cons_of_head_digit hd (by decide) h
    · rw [show pys "half time" = 'h' :: pys "alf time" from rfl] at h
      exact ne_cons_of_head_digit hd (by decide) h
  · rintro (h | h)
    · rw [show pys "ft" = 'f' :: pys "t" from rfl] at h
      exact ne_cons_of_head_digit hd (by decide) h
    · rw [show pys "full time" = 'f' :: pys "ull time" from rfl] at h
      exact ne_cons_of_head_digit hd (by decide) h

/-- C8 core: integer inputs pass through unchanged. -/
theorem extract_minute_int (i : ℤ) : extract_minute (.intI i) = i := rfl

theorem takeWhile_append_stop {p : Char → Bool} {l1 : PyStr}
    (h : ∀ c ∈ l1, p c = true) {a : Char} (ha : p a = false) (l2 : PyStr) :
    (l1 ++ a :: l2).takeWhile p = l1 := by
  induction l1 with
  | nil => simp [List.takeWhile_cons, ha]
  | cons c cs ih =>
    rw [List.cons_append, List.takeWhile_cons, h c (List.mem_cons_self c cs),
      ih (fun x hx => h x (List.mem_cons_of_mem c hx))]
    simp

theorem stripLower_digits_plus_digits (n k : ℕ) :
    stripLower (natToStr n ++ '+' :: natToStr k) = natToStr n ++ '+' :: natToStr k := by
  have hmem : ∀ c ∈ natToStr n ++ '+' :: natToStr k,
      pyIsDigit c = true ∨ c = '+' := by
    intro c hc
    rcases List.mem_append.mp hc with hc | hc
    · exact Or.inl (mem_natToStr_isDigit hc)
    · rcases List.mem_cons.mp hc with hc | hc
      · exact Or.inr hc
      · exact Or.inl (mem_natToStr_isDigit hc)
  unfold stripLower
  rw [stripWs_no_space (fun c hc => by
    rcases hmem c hc with h | h
    · exact digit_not_space h
    · rw [h]; decide)]
  rw [List.map_congr_left (g := id), List.map_id]
  intro c hc
  rcases hmem c hc with h | h
  · exact pyLowerCh_of_digit h
  · rw [h]; decide

/-- C8 core: a decimal digit string parses back to its value. -/
theorem extract_minute_digits (n : ℕ) :
    extract_minute (.strI (natToStr n)) = (n : ℤ) := by
  show extract_minute_str (stripLower (natToStr n)) = (n : ℤ)
  rw [stripLower_natToStr n]
  rcases natToStr_head_digit n with ⟨c, cs, hl, hd⟩
  rcases digit_headed_not_special hl hd with ⟨h1, h2⟩
  unfold extract_minute_str
  rw [if_neg h1, if_neg h2, if_neg (by rw [containsSub_plus_natToStr n]; simp),
    pyParseInt_natToStr]

/-- C8 core: `"NN+K"` keeps only the base minute. -/
theorem extract_minute_plus (n k : ℕ) :
    extract_minute (.strI (natToStr n ++ '+' :: natToStr k)) = (n : ℤ) := by
  show extract_minute_str (stripLower (natToStr n ++ '+' :: natToStr k)) = (n : ℤ)
  rw [stripLower_digits_plus_digits n k]
  rcases natToStr_head_digit n with ⟨c, cs, hl, hd⟩
  have hl' : natToStr n ++ '+' :: natToStr k = c :: (cs ++ '+' :: natToStr k) := by
    rw [hl]; rfl
  rcases digit_headed_not_special hl' hd with ⟨h1, h2⟩
  have hcs : containsSub (natToStr n ++ '+' :: natToStr k) ['+'] = true := by
    have := containsSub_of_append (natToStr n) ['+'] (natToStr k)
    simpa using this
  unfold extract_minute_str
  rw [if_neg h1, if_neg h2,
    if_pos hcs,
    show (natToStr n ++ '+' :: natToStr k).takeWhile (fun c => ¬ c = '+')
        = natToStr n from takeWhile_append_stop
      (fun x hx => by
        rcases mem_natToStr_exists_digit hx with ⟨d, hdd, rfl⟩
        simp [digitChar_ne_plus hdd])
      (by decide) (natToStr k),
    pyParseInt_natToStr]

/-- C8 core: unparsable strings (nothing special, no `'+'`, `int` fails)
fall back to 0. -/
theorem extract_minute_unparsable (s : PyStr)
    (h1 : ¬(stripLower s = pys "ht" ∨ stripLower s = pys "half time"))
    (h2 : ¬(stripLower s = pys "ft" ∨ stripLower s = pys "full time"))
    (h3 : containsSub (stripLower s) ['+'] = false)
    (h4 : pyParseInt (stripLower s) = none) :
    extract_minute (.strI s) = 0 := by
  show extract_minute_str (stripLower s) = 0
  unfold extract_minute_str
  rw [if_neg h1, if_neg h2, if_neg (by rw [h3]; simp), h4]

/-! ### Feature Normalizer: score parsing

Embedding of the score-parsing block of
`MatchDataProcessor.process_match_document`
(src/src/match_processor.py, lines 100-134). -/

/-- `''.join(c if c.isdigit() else ' ' for c in score)`. -/
def scoreDigitized (s : PyStr) : PyStr :=
  s.map (fun c => if pyIsDigit c then c else ' ')

/-- The branch structure of the score parser, applied to the original
`score` and its normalized form (`replace("-", " - ")` plus space
collapsing): try the `" - "` split, the `"-"` split, then digit
extraction.  `none` models the `ValueError` caught by the caller. -/
def parseScoreNorm (score normalized : PyStr) : Option (ℤ × ℤ) :=
  if containsSub normalized (pys " - ") then
    match splitDashSp normalized with
    | [a, b] =>
      match pyParseInt a, pyParseInt b with
      | some x, some y => some (x, y)
      | _, _ => none
    | _ => none
  else if containsSub normalized (pys "-") then
    match splitChar '-' normalized with
    | [a, b] =>
      match pyParseInt a, pyParseInt b with
      | some x, some y => some (x, y)
      | _, _ => none
    | _ => none
  else
    match splitWs (scoreDigitized score) with
    | p1 :: p2 :: _ =>
      match pyParseInt p1, pyParseInt p2 with
      | some x, some y => some (x, y)
      | _, _ => none
    | _ => none

/-- Full score parser. -/
def parseScoreOpt (score : PyStr) : Option (ℤ × ℤ) :=
  parseScoreNorm score (collapseSpaces (replaceDash score))

/-- On failure the caller records `home_goals = away_goals = 0`. -/
def parseScore (score : PyStr) : ℤ × ℤ := (parseScoreOpt score).getD (0, 0)

/-- Re-rendering of a parsed score as the canonical `"{h} - {a}"`. -/
def fmtScoreZ (p : ℤ × ℤ) : PyStr := intToStr p.1 ++ pys " - " ++ intToStr p.2

/-- Canonical score text for natural goal counts. -/
def fmtScore (h a : ℕ) : PyStr := natToStr h ++ pys " - " ++ natToStr a

/-! Lemmas about the normalization chain on canonical inputs. -/

theorem replaceDash_append (l1 l2 : PyStr) :
    replaceDash (l1 ++ l2) = replaceDash l1 ++ replaceDash l2 := by
  unfold replaceDash
  rw [List.foldr_append]
  induction l1 with
  | nil => rfl
  | cons c cs ih =>
    rw [List.foldr_cons, List.foldr_cons, ih]
    by_cases hc : c = '-' <;> simp [hc]

theorem replaceDash_no_dash {l : PyStr} (h : ∀ c ∈ l, c ≠ '-') :
    replaceDash l = l := by
  induction l with
  | nil => rfl
  | cons c cs ih =>
    show (if c = '-' then ' ' :: '-' :: ' ' :: replaceDash cs
      else c :: replaceDash cs) = c :: cs
    rw [if_neg (h c (List.mem_cons_self c cs)),
      ih (fun x hx => h x (List.mem_cons_of_mem c hx))]

theorem natToStr_no_dash (n : ℕ) : ∀ c ∈ natToStr n, c ≠ '-' := by
  intro c hc
  rcases mem_natToStr_exists_digit hc with ⟨d, hd, rfl⟩
  interval_cases d <;> decide

theorem natToStr_no_space (n : ℕ) : ∀ c ∈ natToStr n, c ≠ ' ' := by
  intro c hc
  rcases mem_natToStr_exists_digit hc with ⟨d, hd, rfl⟩
  interval_cases d <;> decide

theorem collapse_no_space {l : PyStr} (h : ∀ c ∈ l, c ≠ ' ') :
    collapseSpaces l = l := by
  induction l with
  | nil => rfl
  | cons c cs ih =>
    rw [collapseSpaces_cons_nonspace (h c (List.mem_cons_self c cs)),
      ih (fun x hx => h x (List.mem_cons_of_mem c hx))]

theorem collapse_nonspace_front {l1 : PyStr} (h : ∀ c ∈ l1, c ≠ ' ')
    (l2 : PyStr) : collapseSpaces (l1 ++ l2) = l1 ++ collapseSpaces l2 := by
  induction l1 with
  | nil => rfl
  | cons c cs ih =>
    rw [List.cons_append,
      collapseSpaces_cons_nonspace (h c (List.mem_cons_self c cs)),
      ih (fun x hx => h x (List.mem_cons_of_mem c hx))]
    rfl

theorem collapse_double_sep {l2 : PyStr} (h2 : ∀ c ∈ l2, c ≠ ' ') :
    collapseSpaces (' ' :: ' ' :: '-' :: ' ' :: ' ' :: l2)
      = ' ' :: '-' :: ' ' :: l2 := by
  rw [show collapseSpaces (' ' :: ' ' :: '-' :: ' ' :: ' ' :: l2)
      = collapseSpaces (' ' :: '-' :: ' ' :: ' ' :: l2) by
    rw [collapseSpaces]; simp]
  rw [show collapseSpaces (' ' :: '-' :: ' ' :: ' ' :: l2)
      = ' ' :: collapseSpaces ('-' :: ' ' :: ' ' :: l2) by
    rw [collapseSpaces]; simp]
  rw [collapseSpaces_cons_nonspace (by decide)]
  rw [show collapseSpaces (' ' :: ' ' :: l2) = collapseSpaces (' ' :: l2) by
    rw [collapseSpaces]; simp]
  cases l2 with
  | nil => rfl
  | cons x xs =>
    rw [show collapseSpaces (' ' :: x :: xs) = ' ' :: collapseSpaces (x :: xs) by
      rw [collapseSpaces]
      rw [if_neg (by intro hc; exact h2 x (List.mem_cons_self x xs) hc.2)],
      collapse_no_space h2]

theorem collapse_single_sep {l2 : PyStr} (h2 : ∀ c ∈ l2, c ≠ ' ') :
    collapseSpaces (' ' :: '-' :: ' ' :: l2) = ' ' :: '-' :: ' ' :: l2 := by
  rw [show collapseSpaces (' ' :: '-' :: ' ' :: l2)
      = ' ' :: collapseSpaces ('-' :: ' ' :: l2) by
    rw [collapseSpaces]; simp]
  rw [collapseSpaces_cons_nonspace (by decide)]
  cases l2 with
  | nil => rfl
  | cons x xs =>
    rw [show collapseSpaces (' ' :: x :: xs) = ' ' :: collapseSpaces (x :: xs) by
      rw [collapseSpaces]
      rw [if_neg (by intro hc; exact h2 x (List.mem_cons_self x xs) hc.2)],
      collapse_no_space h2]

/-- The normalization chain on `"{h} - {a}"`. -/
theorem normalized_canonical_spaced (h a : ℕ) :
    collapseSpaces (replaceDash (fmtScore h a))
      = natToStr h ++ ' ' :: '-' :: ' ' :: natToStr a := by
  unfold fmtScore
  rw [replaceDash_append, replaceDash_append,
    replaceDash_no_dash (natToStr_no_dash h),
    replaceDash_no_dash (natToStr_no_dash a),
    show replaceDash (pys " - ") = ' ' :: ' ' :: '-' :: ' ' :: ' ' :: [] from rfl]
  rw [List.append_assoc, collapse_nonspace_front (natToStr_no_space h)]
  rw [show (' ' :: ' ' :: '-' :: ' ' :: ' ' :: []) ++ natToStr a
      = ' ' :: ' ' :: '-' :: ' ' :: ' ' :: natToStr a from rfl]
  rw [collapse_double_sep (natToStr_no_space a)]

/-- The normalization chain on `"{h}-{a}"`. -/
theorem normalized_canonical_tight (h a : ℕ) :
    collapseSpaces (replaceDash (natToStr h ++ '-' :: natToStr a))
      = natToStr h ++ ' ' :: '-' :: ' ' :: natToStr a := by
  rw [show natToStr h ++ '-' :: natToStr a
      = natToStr h ++ ('-' :: []) ++ natToStr a by simp]
  rw [replaceDash_append, replaceDash_append,
    replaceDash_no_dash (natToStr_no_dash h),
    replaceDash_no_dash (natToStr_no_dash a),
    show replaceDash ('-' :: []) = ' ' :: '-' :: ' ' :: [] from rfl]
  rw [List.append_assoc,
    show (' ' :: '-' :: ' ' :: []) ++ natToStr a
      = ' ' :: '-' :: ' ' :: natToStr a from rfl]
  rw [collapse_nonspace_front (natToStr_no_space h),
    collapse_single_sep (natToStr_no_space a)]

theorem mem_of_startsWith {l sub : PyStr} (h : startsWith l sub = true) :
    ∀ x ∈ sub, x ∈ l := by
  induction sub generalizing l with
  | nil => intro x hx; simp at hx
  | cons y ys ih =>
    cases l with
    | nil => simp [startsWith] at h
    | cons c cs =>
      rw [startsWith, Bool.and_eq_true, decide_eq_true_eq] at h
      intro x hx
      rcases List.mem_cons.mp hx with rfl | hx
      · rw [← h.1]; exact List.mem_cons_self _ _
      · exact List.mem_cons_of_mem _ (ih h.2 x hx)

theorem mem_of_containsSub_all {l sub : PyStr} (h : containsSub l sub = true) :
    ∀ x ∈ sub, x ∈ l := by
  induction l with
  | nil =>
    intro x hx
    cases sub with
    | nil => simp at hx
    | cons y ys => simp [containsSub, startsWith] at h
  | cons c cs ih =>
    rw [containsSub_cons, Bool.or_eq_true] at h
    intro x hx
    rcases h with h | h
    · exact mem_of_startsWith h x hx
    · exact List.mem_cons_of_mem _ (ih h x hx)

/-- C9 core: the canonical `"{h} - {a}"` form parses to `(h, a)`. -/
theorem parseScore_spaced (h a : ℕ) :
    parseScore (fmtScore h a) = ((h : ℤ), (a : ℤ)) := by
  show (parseScoreNorm (fmtScore h a)
      (collapseSpaces (replaceDash (fmtScore h a)))).getD (0, 0) = _
  rw [normalized_canonical_spaced h a]
  unfold parseScoreNorm
  have hcs : containsSub (natToStr h ++ ' ' :: '-' :: ' ' :: natToStr a)
      (pys " - ") = true := by
    have hx := containsSub_of_append (natToStr h) (pys " - ") (natToStr a)
    rw [List.append_assoc] at hx
    exact hx
  rw [if_pos hcs, splitDashSp_sep _ _ (natToStr_no_space h),
    splitDashSp_no_space (natToStr_no_space a)]
  show (match pyParseInt (natToStr h), pyParseInt (natToStr a) with
    | some x, some y => some (x, y)
    | _, _ => none).getD (0, 0) = _
  rw [pyParseInt_natToStr, pyParseInt_natToStr]
  rfl

theorem dropWhile_append_stop {p : Char → Bool} {l1 : PyStr}
    (h : ∀ c ∈ l1, p c = true) {a : Char} (ha : p a = false) (l2 : PyStr) :
    (l1 ++ a :: l2).dropWhile p = a :: l2 := by
  induction l1 with
  | nil => simp [List.dropWhile_cons, ha]
  | cons c cs ih =>
    rw [List.cons_append, List.dropWhile_cons, h c (List.mem_cons_self c cs)]
    exact ih (fun x hx => h x (List.mem_cons_of_mem c hx))

theorem takeWhile_all {p : Char → Bool} {l : PyStr} (h : ∀ c ∈ l, p c = true) :
    l.takeWhile p = l := by
  induction l with
  | nil => rfl
  | cons c cs ih =>
    rw [List.takeWhile_cons, h c (List.mem_cons_self c cs),
      ih (fun x hx => h x (List.mem_cons_of_mem c hx))]
    simp

theorem dropWhile_all {p : Char → Bool} {l : PyStr} (h : ∀ c ∈ l, p c = true) :
    l.dropWhile p = [] := by
  induction l with
  | nil => rfl
  | cons c cs ih =>
    rw [List.dropWhile_cons, h c (List.mem_cons_self c cs)]
    exact ih (fun x hx => h x (List.mem_cons_of_mem c hx))

/-- A single word (non-empty, no spaces) splits to itself. -/
theorem splitWs_nil : splitWs [] = [] := by rw [splitWs]

theorem splitWs_word {w : PyStr} (hw : w ≠ []) (h : ∀ c ∈ w, c ≠ ' ') :
    splitWs w = [w] := by
  cases w with
  | nil => exact absurd rfl hw
  | cons c cs =>
    rw [splitWs, if_neg (h c (List.mem_cons_self c cs)),
      takeWhile_all (fun x hx => by
        simpa using h x (List.mem_cons_of_mem c hx)),
      dropWhile_all (fun x hx => by
        simpa using h x (List.mem_cons_of_mem c hx)), splitWs_nil]

theorem splitWs_sep {w : PyStr} (hw : w ≠ []) (h : ∀ c ∈ w, c ≠ ' ')
    (rest : PyStr) : splitWs (w ++ ' ' :: rest) = w :: splitWs rest := by
  cases w with
  | nil => exact absurd rfl hw
  | cons c cs =>
    rw [List.cons_append, splitWs, if_neg (h c (List.mem_cons_self c cs)),
      takeWhile_append_stop (p := fun x => ¬ x = ' ')
        (fun x hx => by simpa using h x (List.mem_cons_of_mem c hx))
        (by simp) rest,
      dropWhile_append_stop (p := fun x => ¬ x = ' ')
        (fun x hx => by simpa using h x (List.mem_cons_of_mem c hx))
        (by simp) rest]
    rw [show splitWs (' ' :: rest) = splitWs rest by rw [splitWs]; simp]

theorem scoreDigitized_sep (h a : ℕ) {c : Char} (hc : pyIsDigit c = false) :
    scoreDigitized (natToStr h ++ c :: natToStr a)
      = natToStr h ++ ' ' :: natToStr a := by
  unfold scoreDigitized
  rw [List.map_append, List.map_cons, hc]
  rw [List.map_congr_left (g := id) (fun x hx => by
      rw [mem_natToStr_isDigit hx]; rfl), List.map_id]
  rw [List.map_congr_left (g := id) (fun x hx => by
      rw [mem_natToStr_isDigit hx]; rfl), List.map_id]
  simp

/-- Character membership survives space collapsing. -/
theorem mem_collapse_subset : ∀ {l : PyStr} {c : Char},
    c ∈ collapseSpaces l → c ∈ l
  | [], c, hc => by simp [collapseSpaces] at hc
  | [x], c, hc => hc
  | a :: b :: rest, c, hc => by
    rw [collapseSpaces] at hc
    split at hc
    · exact List.mem_cons_of_mem a (mem_collapse_subset hc)
    · rcases List.mem_cons.mp hc with rfl | hc'
      · exact List.mem_cons_self _ _
      · exact List.mem_cons_of_mem a (mem_collapse_subset hc')

theorem splitWs_all_space {l : PyStr} (h : ∀ c ∈ l, c = ' ') :
    splitWs l = [] := by
  induction l with
  | nil => exact splitWs_nil
  | cons c cs ih =>
    rw [splitWs, if_pos (h c (List.mem_cons_self c cs))]
    exact ih (fun x hx => h x (List.mem_cons_of_mem c hx))

/-- C9 core: two decimal numbers joined by any non-digit, non-dash
separator are recovered by the digit-extraction fallback. -/
theorem parseScore_other_sep (h a : ℕ) {c : Char} (hcd : pyIsDigit c = false)
    (hcm : c ≠ '-') :
    parseScore (natToStr h ++ c :: natToStr a) = ((h : ℤ), (a : ℤ)) := by
  have hnod : ∀ x ∈ natToStr h ++ c :: natToStr a, x ≠ '-' := by
    intro x hx
    rcases List.mem_append.mp hx with hx | hx
    · exact natToStr_no_dash h x hx
    · rcases List.mem_cons.mp hx with rfl | hx
      · exact hcm
      · exact natToStr_no_dash a x hx
  have hrd : replaceDash (natToStr h ++ c :: natToStr a)
      = natToStr h ++ c :: natToStr a := replaceDash_no_dash hnod
  have hnorm : ∀ x ∈ collapseSpaces (natToStr h ++ c :: natToStr a),
      x ≠ '-' := fun x hx => hnod x (mem_collapse_subset hx)
  show (parseScoreNorm (natToStr h ++ c :: natToStr a)
      (collapseSpaces (replaceDash (natToStr h ++ c :: natToStr a)))).getD (0, 0) = _
  rw [hrd]
  unfold parseScoreNorm
  rw [if_neg (by
    intro hcs
    exact hnorm '-' (mem_of_containsSub_all hcs '-' (by decide)) rfl)]
  rw [if_neg (by
    intro hcs
    exact hnorm '-' (mem_of_containsSub_all hcs '-' (by decide)) rfl)]
  rw [scoreDigitized_sep h a hcd,
    splitWs_sep (natToStr_ne_nil h) (natToStr_no_space h) (natToStr a),
    splitWs_word (natToStr_ne_nil a) (natToStr_no_space a)]
  show (match pyParseInt (natToStr h), pyParseInt (natToStr a) with
    | some x, some y => some (x, y)
    | _, _ => none).getD (0, 0) = _
  rw [pyParseInt_natToStr, pyParseInt_natToStr]
  rfl

/-- C9 core: a string with no digits and no dash parses to `(0, 0)`. -/
theorem parseScore_unparsable {s : PyStr}
    (hd : ∀ c ∈ s, pyIsDigit c = false) (hm : '-' ∉ s) :
    parseScore s = (0, 0) := by
  have hnod : ∀ x ∈ s, x ≠ '-' := fun x hx hxd => hm (hxd ▸ hx)
  have hrd : replaceDash s = s := replaceDash_no_dash hnod
  show (parseScoreNorm s (collapseSpaces (replaceDash s))).getD (0, 0) = _
  rw [hrd]
  unfold parseScoreNorm
  rw [if_neg (by
    intro hcs
    exact hnod '-' (mem_collapse_subset
      (mem_of_containsSub_all hcs '-' (by decide))) rfl)]
  rw [if_neg (by
    intro hcs
    exact hnod '-' (mem_collapse_subset
      (mem_of_containsSub_all hcs '-' (by decide))) rfl)]
  rw [show splitWs (scoreDigitized s) = [] from splitWs_all_space (by
    intro x hx
    unfold scoreDigitized at hx
    rcases List.mem_map.mp hx with ⟨y, hy, rfl⟩
    simp [hd y hy])]
  rfl

/-- C9 core: the tight `"{h}-{a}"` form parses to `(h, a)`. -/
theorem parseScore_tight (h a : ℕ) :
    parseScore (natToStr h ++ '-' :: natToStr a) = ((h : ℤ), (a : ℤ)) := by
  show (parseScoreNorm (natToStr h ++ '-' :: natToStr a)
      (collapseSpaces (replaceDash (natToStr h ++ '-' :: natToStr a)))).getD (0, 0) = _
  rw [normalized_canonical_tight h a]
  unfold parseScoreNorm
  have hcs : containsSub (natToStr h ++ ' ' :: '-' :: ' ' :: natToStr a)
      (pys " - ") = true := by
    have hx := containsSub_of_append (natToStr h) (pys " - ") (natToStr a)
    rw [List.append_assoc] at hx
    exact hx
  rw [if_pos hcs, splitDashSp_sep _ _ (natToStr_no_space h),
    splitDashSp_no_space (natToStr_no_space a)]
  show (match pyParseInt (natToStr h), pyParseInt (natToStr a) with
    | some x, some y => some (x, y)
    | _, _ => none).getD (0, 0) = _
  rw [pyParseInt_natToStr, pyParseInt_natToStr]
  rfl

theorem intToStr_natCast (n : ℕ) : intToStr (n : ℤ) = natToStr n := by
  unfold intToStr
  rw [if_neg (by omega), Int.toNat_natCast]

/-- C8: minute normalization (`_extract_minute`) is a total function into
the integers: an integer input is returned as-is, a decimal digit string
parses to its value, `"HT"` maps to 45, `"FT"` maps to 90, `"NN+K"` maps
to `NN`, and any string that matches no special form, has no `'+'`, and on
which `int` fails maps to 0. -/
theorem C8_minute_normalization :
    (∀ i : ℤ, extract_minute (.intI i) = i) ∧
    (∀ n : ℕ, extract_minute (.strI (natToStr n)) = (n : ℤ)) ∧
    extract_minute (.strI (pys "HT")) = 45 ∧
    extract_minute (.strI (pys "FT")) = 90 ∧
    (∀ n k : ℕ,
      extract_minute (.strI (natToStr n ++ '+' :: natToStr k)) = (n : ℤ)) ∧
    (∀ s : PyStr,
      ¬(stripLower s = pys "ht" ∨ stripLower s = pys "half time") →
      ¬(stripLower s = pys "ft" ∨ stripLower s = pys "full time") →
      containsSub (stripLower s) ['+'] = false →
      pyParseInt (stripLower s) = none →
      extract_minute (.strI s) = 0) :=
  ⟨extract_minute_int, extract_minute_digits, by decide, by decide,
    extract_minute_plus, extract_minute_unparsable⟩

/-- Witness for C8: the unparsable clause at `"xx"` and the int clause at 37. -/
theorem C8_minute_normalization_witness :
    extract_minute (.strI (pys "xx")) = 0 ∧ extract_minute (.intI 37) = 37 :=
  ⟨C8_minute_normalization.2.2.2.2.2 (pys "xx")
      (by decide) (by decide) (by decide) (by decide),
    C8_minute_normalization.1 37⟩

/-- C9 (amended): score parsing accepts `"H - A"`, `"H-A"`, and two
numbers joined by a single non-digit, non-dash separator character,
yielding `(H, A)`; re-rendering as `"{h} - {a}"` reproduces the canonical
form; digit-free, dash-free strings parse to `(0, 0)` without raising.
(Not every string containing exactly two integers parses to them: when a
dash is present the dash split takes precedence, and a stray character in
a split piece makes `int` fail, giving `(0, 0)` instead.) -/
theorem C9_score_parsing_roundtrip :
    (∀ h a : ℕ, parseScore (fmtScore h a) = ((h : ℤ), (a : ℤ))) ∧
    (∀ h a : ℕ,
      parseScore (natToStr h ++ '-' :: natToStr a) = ((h : ℤ), (a : ℤ))) ∧
    (∀ h a : ℕ, ∀ c : Char, pyIsDigit c = false → c ≠ '-' →
      parseScore (natToStr h ++ c :: natToStr a) = ((h : ℤ), (a : ℤ))) ∧
    (∀ h a : ℕ,
      fmtScoreZ (parseScore (natToStr h ++ '-' :: natToStr a)) = fmtScore h a) ∧
    (∀ s : PyStr, (∀ c ∈ s, pyIsDigit c = false) → '-' ∉ s →
      parseScore s = (0, 0)) := by
  refine ⟨parseScore_spaced, parseScore_tight, parseScore_other_sep, ?_,
    fun s hd hm => parseScore_unparsable hd hm⟩
  intro h a
  rw [parseScore_tight h a]
  unfold fmtScoreZ fmtScore
  rw [intToStr_natCast, intToStr_natCast]

/-- Witness for C9: the separator clause at `"1:2"` and the unparsable
clause at `"abc"`. -/
theorem C9_score_parsing_roundtrip_witness :
    parseScore (natToStr 1 ++ ':' :: natToStr 2) = (1, 2) ∧
      parseScore (pys "abc") = (0, 0) :=
  ⟨C9_score_parsing_roundtrip.2.2.1 1 2 ':' (by decide) (by decide),
    C9_score_parsing_roundtrip.2.2.2.2 (pys "abc") (by decide) (by decide)⟩

/-- Counterexample to C9 as stated: the strings `"3-2x"` and `"1:2-"`
each contain exactly two integers (their maximal digit runs are `3, 2`
and `1, 2`, as the digit-extraction view shows), yet parsing returns
`(0, 0)` rather than `(3, 2)` / `(1, 2)`: the dash normalization makes
the `" - "` split win, `int` then fails on the piece carrying the stray
character, and the digit-extraction fallback is never reached. -/
theorem C9_two_integers_not_recovered :
    splitWs (scoreDigitized (pys "3-2x")) = [pys "3", pys "2"] ∧
    parseScore (pys "3-2x") = (0, 0) ∧
    splitWs (scoreDigitized (pys "1:2-")) = [pys "1", pys "2"] ∧
    parseScore (pys "1:2-") = (0, 0) := by
  refine ⟨?_, by decide, ?_, by decide⟩
  · rw [show scoreDigitized (pys "3-2x")
        = ['3'] ++ ' ' :: (['2'] ++ ' ' :: []) from by decide]
    rw [splitWs_sep (by decide) (by decide),
      splitWs_sep (by decide) (by decide), splitWs_nil]
    decide
  · rw [show scoreDigitized (pys "1:2-")
        = ['1'] ++ ' ' :: (['2'] ++ ' ' :: []) from by decide]
    rw [splitWs_sep (by decide) (by decide),
      splitWs_sep (by decide) (by decide), splitWs_nil]
    decide

/-! ### Rule Evaluator: odds values and extraction

Embedding of the odds handling in src/src/betting_rules.py
(`GoalsRule._extract_odds`, lines 175-243) and src/src/match_processor.py
(`MatchDataProcessor._extract_odds` / `_get_best_odd`, lines 402-516). -/

/-- A Python value as it occurs inside odds dictionaries: a number
(int/float), a string, or anything else (None, nested dicts, ...). -/
inductive PyVal where
  | num (q : ℚ)
  | str (s : PyStr)
  | other
deriving DecidableEq

/-- Model of Python `float(s)` on a string: optional sign, digits with an
optional fractional part (exponent notation and `inf`/`nan` are not
modelled; they do not occur in odds feeds). -/
def parseFloatStr (s : PyStr) : Option ℚ :=
  let parse : PyStr → Option ℚ := fun u =>
    match splitChar '.' u with
    | [ip] =>
      if ip ≠ [] ∧ ip.all pyIsDigit then some (mkRat (parseNatCore ip) 1)
      else none
    | [ip, fp] =>
      if (ip ++ fp) ≠ [] ∧ (ip ++ fp).all pyIsDigit then
        some (mkRat (parseNatCore ip * 10 ^ fp.length + parseNatCore fp)
          (10 ^ fp.length))
      else none
    | _ => none
  let t := stripWs s
  if t.head? = some '+' then parse t.tail
  else if t.head? = some '-' then (parse t.tail).map (fun q => -q)
  else parse t

/-- Python `float(v)` on a dict value: numbers pass through, strings are
parsed, anything else raises (`none`). -/
def pyFloat? (v : PyVal) : Option ℚ :=
  match v with
  | .num q => some q
  | .str s => parseFloatStr s
  | .other => none

/-- Python truthiness of a dict value (`other` stands for `None` and the
like, which are handled as falsy where the source tests truthiness). -/
def pyTruthy (v : PyVal) : Bool :=
  match v with
  | .num q => q ≠ 0
  | .str s => s ≠ []
  | .other => false

/-- A bookmaker → quoted price dictionary. -/
abbrev BookMap := List (PyStr × PyVal)

/-- One line's entry in the nested `overUnderOdds.under` map;
`oddsMap = none` models a malformed entry or a missing `"odds"` key
(both are skipped per line by the source's `try/except`). -/
structure OddsInfo where
  oddsMap : Option BookMap
deriving DecidableEq

/-- The odds field of a match document: the direct key→value entries,
plus the `overUnderOdds.under` map when both nesting keys are present. -/
structure OddsData where
  entries : List (PyStr × PyVal)
  underMap : Option (List (PyStr × OddsInfo))
deriving DecidableEq

/-- `best_odd = 0; best_odd = max(best_odd, float(v))` over a bookmaker
map, skipping unparseable values (`GoalsRule._extract_odds`, lines
208-214). -/
def bestOdd0 (bm : BookMap) : ℚ :=
  bm.foldl (fun best p =>
    match pyFloat? p.2 with
    | some q => max best q
    | none => best) 0

/-- Strip leading zeros of an integer-part digit string (Python float
normalization; empty means 0). -/
def stripLeadZeros (l : PyStr) : PyStr :=
  let t := l.dropWhile (fun c => c = '0')
  if t = [] then ['0'] else t

/-- Strip trailing zeros of a fractional-part digit string. -/
def stripTrailZeros (l : PyStr) : PyStr :=
  let t := (l.reverse.dropWhile (fun c => c = '0')).reverse
  if t = [] then ['0'] else t

/-- `line = float(line_str) if '.' in line_str else float(line_str + '.0')`
followed by the f-string rendering of that float: the digit string is
normalized to Python's shortest decimal form (`"4.50"` → `"4.5"`,
`"4"` → `"4.0"`); `none` models the per-line `ValueError`. -/
def normLine (l : PyStr) : Option PyStr :=
  if containsSub l ['.'] then
    match splitChar '.' l with
    | [ip, fp] =>
      if (ip ++ fp) ≠ [] ∧ (ip ++ fp).all pyIsDigit then
        some (stripLeadZeros ip ++ '.' :: stripTrailZeros fp)
      else none
    | _ => none
  else
    if l ≠ [] ∧ l.all pyIsDigit then some (stripLeadZeros l ++ pys ".0")
    else none

/-- `GoalsRule._extract_odds` (src/src/betting_rules.py, lines 175-243):
copy direct numeric `under_*` entries; add a `under_{line}` entry with the
best bookmaker price for each well-formed nested line (later dict writes
win, hence the nested entries shadow direct ones on key collisions); if
nothing was found, fall back to any entry whose lowered key contains
`"under"` and whose value converts with `float`. -/
def goalsExtractOdds (od : OddsData) : List (PyStr × ℚ) :=
  let direct := od.entries.filterMap (fun p =>
    match p.2 with
    | .num q => if startsWith p.1 (pys "under_") then some (p.1, q) else none
    | _ => none)
  let nested := match od.underMap with
    | none => []
    | some um => um.filterMap (fun p =>
        match p.2.oddsMap with
        | none => none
        | some bm =>
          let best := bestOdd0 bm
          if 0 < best then
            match normLine p.1 with
            | some ls => some (pys "under_" ++ ls, best)
            | none => none
          else none)
  let processed := nested ++ direct
  if processed = [] then
    od.entries.filterMap (fun p =>
      if containsSub (p.1.map pyLowerCh) (pys "under") then
        match p.2 with
        | .num q => some (p.1, q)
        | .str s => (parseFloatStr s).map (fun q => (p.1, q))
        | .other => none
      else none)
  else processed

/-! ### Rule Evaluator: rules and aggregate evaluation

Embedding of `GoalsRule.evaluate`, `StakeRule`, `TimeRule`, `DivisorRule`
and `evaluate_betting_rules` (src/src/betting_rules.py, lines 53-537 and
695-869). -/

/-- `map(int, score.split(" - "))` with exactly two pieces: the strict
score parse used throughout the rules/tracker code (no separator
normalization). -/
def scoreParseStrict (s : PyStr) : Option (ℤ × ℤ) :=
  match splitDashSp s with
  | [a, b] =>
    match pyParseInt a, pyParseInt b with
    | some x, some y => some (x, y)
    | _, _ => none
  | _ => none

/-- The `min_goal_line_buffer` parameter as the Python value it is:
either an int, or a float that is an exact half (`2.5`, the repo default)
or a whole float (`3.0`). -/
inductive GoalBuffer where
  | intB (n : ℕ)
  | halfB (k : ℕ)
  | wholeB (n : ℕ)
deriving DecidableEq

/-- Python `repr`/f-string of the float `v + 0.5`. -/
def fmtHalf (v : ℤ) : PyStr :=
  if 0 ≤ v then natToStr v.toNat ++ pys ".5"
  else '-' :: natToStr (-v - 1).toNat ++ pys ".5"

/-- Python `repr`/f-string of the float `v.0`. -/
def fmtWholeZ (v : ℤ) : PyStr := intToStr v ++ pys ".0"

/-- `f"{total_goals + buffer}"`: int + int stays an int; int + float is a
float and is rendered with its decimal point. -/
def fmtTargetLine (total : ℤ) : GoalBuffer → PyStr
  | .intB n => intToStr (total + n)
  | .halfB k => fmtHalf (total + k)
  | .wholeB n => fmtWholeZ (total + n)

/-- `market = f"under_{target_goal_line}.5"` (betting_rules.py lines
146-147 and 772-773). -/
def marketKey (total : ℤ) (b : GoalBuffer) : PyStr :=
  pys "under_" ++ fmtTargetLine total b ++ pys ".5"

/-- The post-`get` view of a match-data dict as the rule evaluator reads
it (string fields default to the documented defaults; `league`/`country`
are `none` when the key is missing; `odds = none` models `"odds" not in
match_data`). -/
structure MatchData where
  matchId : PyStr
  homeTeam : PyStr
  awayTeam : PyStr
  score : PyStr
  minute : ℤ
  league : Option PyStr
  country : Option PyStr
  odds : Option OddsData
deriving DecidableEq

/-- Parameters of a class-based `GoalsRule` (the callable form of the
`match` filter is not modelled; it does not occur in this repository). -/
structure GoalsParams where
  active : Bool
  minOdds : ℚ
  maxOdds : ℚ
  matchF : Option PyStr
  country : Option PyStr
  league : Option PyStr
  minGoals : ℤ
  maxGoals : ℤ
  buffer : GoalBuffer
deriving DecidableEq

/-- Python truthiness of an optional string parameter (`None` and `""`
are falsy). -/
def truthyOpt (o : Option PyStr) : Bool :=
  match o with
  | some s => s ≠ []
  | none => false

/-- `GoalsRule._match_filter` for a string filter: substring test against
match id and team names (lines 258-265). -/
def matchFilter (mf : PyStr) (md : MatchData) : Bool :=
  containsSub md.matchId mf || containsSub md.homeTeam mf ||
    containsSub md.awayTeam mf

/-- The three early-return filter checks of `GoalsRule.evaluate`
(lines 123-132): league, country, match filter. -/
def goalsFiltersFail (p : GoalsParams) (md : MatchData) : Bool :=
  (truthyOpt p.league && decide (md.league ≠ p.league)) ||
  (truthyOpt p.country && decide (md.country ≠ p.country)) ||
  (truthyOpt p.matchF &&
    !(match p.matchF with
      | some mf => matchFilter mf md
      | none => false))

/-- The embedded odds-range check of `GoalsRule.evaluate` (lines
141-164): it only applies when the built market key resolves in the
extracted odds; odds errors are swallowed, so an unresolved key leaves
the rule passing. -/
def goalsOddsOk (p : GoalsParams) (md : MatchData) (total : ℤ) : Bool :=
  match md.odds with
  | none => true
  | some od =>
    match lookupKey (goalsExtractOdds od) (marketKey total p.buffer) with
    | some ov => if ov < p.minOdds ∨ ov > p.maxOdds then false else true
    | none => true

/-- `GoalsRule.evaluate` (lines 98-173): inactive → False; unparseable
score → False; then filters, goals range, and the odds check. -/
def goalsRuleEval (p : GoalsParams) (md : MatchData) : Bool :=
  if p.active = false then false
  else
    match scoreParseStrict md.score with
    | none => false
    | some (h, a) =>
      if goalsFiltersFail p md then false
      else if h + a < p.minGoals ∨ h + a > p.maxGoals then false
      else goalsOddsOk p md (h + a)

/-- Python truthiness of an optional list parameter. -/
def truthyListOpt (o : Option (List PyStr)) : Bool :=
  match o with
  | some l => l ≠ []
  | none => false

/-- `x in l` where `x` may be `None` (`None` is never in a string list). -/
def optMemList (x : Option PyStr) (l : List PyStr) : Bool :=
  match x with
  | some s => decide (s ∈ l)
  | none => false

/-- `TimeRule.evaluate` (lines 344-366). -/
def timeRuleEval (active : Bool) (minMinute maxMinute : ℤ)
    (md : MatchData) : Bool :=
  if active = false then false
  else decide (minMinute ≤ md.minute ∧ md.minute ≤ maxMinute)

/-- `DivisorRule.evaluate` (lines 505-537): country/league list filters
only; otherwise True. -/
def divisorRuleEval (active : Bool) (countries leagues : Option (List PyStr))
    (md : MatchData) : Bool :=
  if active = false then false
  else if truthyListOpt countries = true ∧
      optMemList md.country (countries.getD []) = false then false
  else if truthyListOpt leagues = true ∧
      optMemList md.league (leagues.getD []) = false then false
  else true

/-- A class-based rule (`isinstance(rule, BettingRule)` branch). -/
inductive ClassRule where
  | goalsC (p : GoalsParams)
  | stakeC (active : Bool) (stake : ℚ) (strategy : PyStr)
  | timeC (active : Bool) (minMinute maxMinute : ℤ)
  | divisorC (active : Bool) (d : ℚ) (countries leagues : Option (List PyStr))
deriving DecidableEq

def ClassRule.activeFlag : ClassRule → Bool
  | .goalsC p => p.active
  | .stakeC a _ _ => a
  | .timeC a _ _ => a
  | .divisorC a _ _ _ => a

def ClassRule.typeName : ClassRule → PyStr
  | .goalsC _ => pys "goals"
  | .stakeC _ _ _ => pys "stake"
  | .timeC _ _ _ => pys "time"
  | .divisorC _ _ _ _ => pys "divisor"

def ClassRule.eval (c : ClassRule) (md : MatchData) : Bool :=
  match c with
  | .goalsC p => goalsRuleEval p md
  | .stakeC a _ _ => a
  | .timeC a x y => timeRuleEval a x y md
  | .divisorC a _ cs ls => divisorRuleEval a cs ls md

/-- A dictionary-based rule; the constructors carry the fields the
evaluator reads (`odds = none` models `"odds" not in rule`). -/
inductive DictRule where
  | goalsD (active : Bool) (minGoals maxGoals : ℤ) (buffer : GoalBuffer)
      (odds : Option (ℚ × ℚ))
  | timeD (active : Bool) (minMinute maxMinute : ℤ)
  | stakeD (active : Bool) (stake : ℚ) (strategy : PyStr)
  | divisorD (active : Bool) (d : ℚ)
deriving DecidableEq

/-- A rule as `evaluate_betting_rules` receives it. -/
inductive Rule where
  | dictR (d : DictRule)
  | classR (c : ClassRule)
deriving DecidableEq

/-- The `results` dict built by `evaluate_betting_rules` (lines 706-714);
`match_id` and the `ml_prediction` bookkeeping entry are omitted. -/
structure EvalResult where
  is_suitable : Bool
  rules_passed : List PyStr
  rules_failed : List PyStr
  stake : ℚ
  stake_strategy : PyStr
  divisor : Option ℚ
deriving DecidableEq

def initResult : EvalResult :=
  ⟨true, [], [], 0, pys "none", none⟩

/-- `market_odds` resolution in the dict-path goals rule (lines 775-800):
direct lookup of the built market key (a non-numeric direct hit raises on
comparison and the `except` swallows the whole check → `none`), else the
maximum price over every line and bookmaker of the nested map, else 0. -/
def dictMarketOdds (od : OddsData) (market : PyStr) : Option ℚ :=
  match lookupKey od.entries market with
  | some (.num q) => some q
  | some _ => none
  | none =>
    match od.underMap with
    | some um =>
      some (um.foldl (fun acc p =>
        match p.2.oddsMap with
        | some bm => bm.foldl (fun a q =>
            match pyFloat? q.2 with
            | some od' => if a < od' then od' else a
            | none => a) acc
        | none => acc) 0)
    | none => some 0

/-- One iteration of the rule loop of `evaluate_betting_rules`
(lines 717-826). -/
def evalStep (md : MatchData) (r : EvalResult) (rule : Rule) : EvalResult :=
  match rule with
  | .classR c =>
    if c.activeFlag = false then r
    else if c.eval md then
      let r1 := { r with rules_passed := r.rules_passed ++ [c.typeName] }
      match c with
      | .stakeC _ st strat => { r1 with stake := st, stake_strategy := strat }
      | _ => r1
    else { r with
            rules_failed := r.rules_failed ++ [c.typeName]
            is_suitable := false }
  | .dictR d =>
    match d with
    | .goalsD active minG maxG buffer oddsRule =>
      if active = false then r
      else
        let total : ℤ :=
          match scoreParseStrict md.score with
          | some (h, a) => h + a
          | none => 0
        let r1 :=
          if total < minG ∨ total > maxG then
            { r with
                rules_failed := r.rules_failed ++ [pys "goals"]
                is_suitable := false }
          else { r with rules_passed := r.rules_passed ++ [pys "goals"] }
        match oddsRule, md.odds with
        | some (omin, omax), some od =>
          match dictMarketOdds od (marketKey total buffer) with
          | some mo =>
            if 0 < mo ∧ (mo < omin ∨ mo > omax) then
              { r1 with
                  rules_failed := r1.rules_failed ++ [pys "odds"]
                  is_suitable := false }
            else r1
          | none => r1
        | _, _ => r1
    | .timeD active minM maxM =>
      if active = false then r
      else if md.minute < minM ∨ md.minute > maxM then
        { r with
            rules_failed := r.rules_failed ++ [pys "time"]
            is_suitable := false }
      else { r with rules_passed := r.rules_passed ++ [pys "time"] }
    | .stakeD active st strat =>
      if active = false then r
      else { r with
              stake := st
              stake_strategy := strat
              rules_passed := r.rules_passed ++ [pys "stake"] }
    | .divisorD active _ =>
      -- the dict path has no branch for rule_type == "divisor": the rule
      -- is read past without any effect on the results
      if active = false then r else r

/-- The rule loop. -/
def evalRules (md : MatchData) (rules : List Rule) : EvalResult :=
  rules.foldl (evalStep md) initResult

/-- The divisor-adjustment block (lines 828-835): it reads
`results["divisor"]`, which is initialized to `None` and never written. -/
def applyDivisorAdjust (r : EvalResult) : EvalResult :=
  match r.divisor with
  | some d =>
    if 0 < r.stake ∧ d ≠ 0 then
      if r.stake_strategy = pys "fixed" then
        { r with
            stake := r.stake / d
            stake_strategy := pys "percentage" }
      else r
    else r
  | none => r

/-- The rule-based verdict before ML blending. -/
def rulesVerdict (md : MatchData) (rules : List Rule) : EvalResult :=
  applyDivisorAdjust (evalRules md rules)

/-- The ML-blending block (lines 837-868).  The argument is the outcome
of `get_ml_predictor().predict(match_data)`; `.error` is the exception
path, which leaves the results untouched. -/
def applyML (r : EvalResult) (ml : Except Unit (Bool × ℚ)) : EvalResult :=
  match ml with
  | .error _ => r
  | .ok (mls, mlc) =>
    if r.is_suitable = true ∧ mls = false then
      if mlc < mkRat 3 10 then
        { r with
            is_suitable := false
            rules_failed := r.rules_failed ++ [pys "ml_prediction"] }
      else if mlc < mkRat 1 2 then { r with stake := r.stake * mlc }
      else r
    else if r.is_suitable = false ∧ mls = true ∧ mkRat 4 5 < mlc then
      { r with
          is_suitable := true
          rules_passed := r.rules_passed ++ [pys "ml_prediction_override"] }
    else r

/-- `evaluate_betting_rules` (lines 695-869). -/
def evaluateBettingRules (md : MatchData) (rules : List Rule)
    (ml : Except Unit (Bool × ℚ)) : EvalResult :=
  applyML (rulesVerdict md rules) ml

/-! ### ML predictor

Embedding of `MLPredictor.predict` (src/src/ml_predictor.py, lines
151-226). -/

/-- The first-half heuristics on the raw minute string (lines 179-185).
The `int(minute_raw.split('+')[0])` call is outside any `try` — an
unparseable prefix raises out of `predict` (`.error`). -/
def firstHalfRaw (raw : PyStr) : Except Unit Bool :=
  if containsSub raw (pys "1H") || containsSub raw (pys "1st") ||
      containsSub raw (pys "HT") ||
      (decide (raw ≠ []) && raw.all pyIsDigit &&
        decide (parseNatCore raw ≤ 45)) then .ok true
  else if containsSub raw ['+'] then
    match pyParseInt (raw.takeWhile (fun c => ¬ c = '+')) with
    | some v => .ok (decide (v ≤ 45))
    | none => .error ()
  else .ok false

/-- `MLPredictor.predict`: no model → `(False, 0.0)`; half-time or first
half or minute < 50 → `(True, 0.75)`; otherwise the model's confidence is
consulted (`inner`), and any internal error is swallowed into
`(False, 0.0)`. -/
def mlPredict (modelLoaded : Bool) (minute : ℤ) (minuteRaw : PyStr)
    (inner : Except Unit ℚ) : Except Unit (Bool × ℚ) :=
  if modelLoaded = false then .ok (false, 0)
  else if minute = 45 then .ok (true, mkRat 3 4)
  else
    match firstHalfRaw minuteRaw with
    | .error _ => .error ()
    | .ok true => .ok (true, mkRat 3 4)
    | .ok false =>
      if minute < 50 then .ok (true, 3/4)
      else
        match inner with
        | .ok conf => .ok (decide (mkRat 3 5 ≤ conf), conf)
        | .error _ => .ok (false, 0)

/-- C3: the Confidence Blender override policy.  For every rule verdict
and ML prediction `(suitable, confidence)` with confidence in `[0, 1]`:
rule-suitable + ML-unsuitable is overridden to unsuitable below 0.3,
kept suitable with the stake scaled by the confidence in `[0.3, 0.5)`,
and left completely unchanged from 0.5 on; rule-unsuitable +
ML-suitable is overridden to suitable above 0.8; every other
combination leaves the verdict (and stake) standing. -/
theorem C3_ml_override_policy :
    (∀ (md : MatchData) (rules : List Rule) (ml : Except Unit (Bool × ℚ)),
      evaluateBettingRules md rules ml = applyML (rulesVerdict md rules) ml) ∧
    (∀ (r : EvalResult) (mls : Bool) (mlc : ℚ), 0 ≤ mlc → mlc ≤ 1 →
      (r.is_suitable = true → mls = false → mlc < mkRat 3 10 →
        (applyML r (.ok (mls, mlc))).is_suitable = false) ∧
      (r.is_suitable = true → mls = false → mkRat 3 10 ≤ mlc → mlc < mkRat 1 2 →
        (applyML r (.ok (mls, mlc))).is_suitable = true ∧
          (applyML r (.ok (mls, mlc))).stake = r.stake * mlc) ∧
      (r.is_suitable = true → mls = false → mkRat 1 2 ≤ mlc →
        applyML r (.ok (mls, mlc)) = r) ∧
      (r.is_suitable = false → mls = true → mkRat 4 5 < mlc →
        (applyML r (.ok (mls, mlc))).is_suitable = true) ∧
      (¬(r.is_suitable = true ∧ mls = false) →
        ¬(r.is_suitable = false ∧ mls = true ∧ mkRat 4 5 < mlc) →
        applyML r (.ok (mls, mlc)) = r)) := by
  refine ⟨fun _ _ _ => rfl, fun r mls mlc h0 h1 => ⟨?_, ?_, ?_, ?_, ?_⟩⟩
  · intro hs hm hc
    simp only [applyML]
    rw [if_pos ⟨hs, hm⟩, if_pos hc]
  · intro hs hm hc1 hc2
    simp only [applyML]
    rw [if_pos ⟨hs, hm⟩, if_neg (not_lt.mpr hc1), if_pos hc2]
    exact ⟨hs, rfl⟩
  · intro hs hm hc
    simp only [applyML]
    rw [if_pos ⟨hs, hm⟩,
      if_neg (not_lt.mpr (le_trans (by decide) hc)),
      if_neg (not_lt.mpr hc)]
  · intro hs hm hc
    simp only [applyML]
    rw [if_neg (by simp [hs]), if_pos ⟨hs, hm, hc⟩]
  · intro hn1 hn2
    simp only [applyML]
    rw [if_neg hn1, if_neg hn2]

/-- Witness for C3: a suitable verdict with ML confidence 0.25 against it
is overridden to unsuitable. -/
theorem C3_ml_override_policy_witness :
    (applyML ⟨true, [], [], mkRat 1 2, pys "fixed", none⟩
      (.ok (false, mkRat 1 4))).is_suitable = false :=
  (C3_ml_override_policy.2 ⟨true, [], [], mkRat 1 2, pys "fixed", none⟩ false
    (mkRat 1 4) (by decide) (by decide)).1 rfl rfl (by decide)

/-! ### Feature Normalizer: odds extraction

Embedding of `MatchDataProcessor._get_best_odd` and
`MatchDataProcessor._extract_odds` (src/src/match_processor.py, lines
402-516). -/

/-- `_get_best_odd`: keep truthy values other than `"-"`/`""` whose
`float(...)` succeeds, and return the maximum (`0.0` when none). -/
def getBestOdd (bm : BookMap) : ℚ :=
  let valid := bm.filterMap (fun p =>
    if pyTruthy p.2 = true ∧ p.2 ≠ .str ['-'] ∧ p.2 ≠ .str [] then
      pyFloat? p.2
    else none)
  match valid with
  | [] => 0
  | x :: xs => xs.foldl max x

/-- The odds document as `MatchDataProcessor._extract_odds` reads it.
`moneyLine` models `moneyLineOdds` with its `Home`/`Draw`/`Away` entries;
`overUnder` models `overUnderOdds.under`; `btts` models
`bothTeamsToScoreOdds` with its `Yes`/`No` entries.  (The `var_info`
bookkeeping entries are not modelled; they are not numeric markets.) -/
structure MDPOdds where
  moneyLine : Option (Option BookMap × Option BookMap × Option BookMap)
  overUnder : Option (List (PyStr × OddsInfo))
  btts : Option (Option BookMap × Option BookMap)

/-- `MatchDataProcessor._extract_odds`: money-line markets are extracted
first; then, if `overUnderOdds` is present, line 436 reads the name
`processed_data`, which is not defined in this method — the resulting
`NameError` is caught by the method-level `except` (line 486) and the
partial result accumulated so far is returned, so the over/under and
BTTS markets are dropped.  Only without `overUnderOdds` does extraction
continue to the BTTS markets. -/
def mdpExtractOdds (od : MDPOdds) : List (PyStr × ℚ) :=
  let r1 :=
    match od.moneyLine with
    | none => []
    | some (h, d, a) =>
      (match h with
       | some bm => [(pys "home_win", getBestOdd bm)]
       | none => []) ++
      (match d with
       | some bm => [(pys "draw", getBestOdd bm)]
       | none => []) ++
      (match a with
       | some bm => [(pys "away_win", getBestOdd bm)]
       | none => [])
  if od.overUnder.isSome then r1
  else
    r1 ++
      (match od.btts with
       | none => []
       | some (y, n) =>
         (match y with
          | some bm => [(pys "btts_yes", getBestOdd bm)]
          | none => []) ++
         (match n with
          | some bm => [(pys "btts_no", getBestOdd bm)]
          | none => []))

/-! ### Claims C4, C6, C7 -/

/-- Match data for the blender-failure scenario: minute 55, score 1-1. -/
def mdC4 : MatchData :=
  ⟨pys "m1", pys "Home", pys "Away", pys "1 - 1", 55, none, none, none⟩

/-- Rules for the blender-failure scenario: time window 52-61 plus a
fixed stake. -/
def rulesC4 : List Rule :=
  [.dictR (.timeD true 52 61), .dictR (.stakeD true (mkRat 1 2) (pys "fixed"))]

/-- C4: a blending failure is only isolated when the `predict` call
itself raises.  When the predictor is unavailable (`model is None`),
`predict` returns the sentinel `(False, 0.0)` instead of raising, the
blender reads it as a confident not-suitable prediction, and a
rule-suitable verdict is silently overridden to unsuitable —
contradicting the claim. -/
theorem C4_blender_error_flips_verdict :
    (evaluateBettingRules mdC4 rulesC4 (.error ())).is_suitable = true ∧
    mlPredict false 55 [] (.ok (mkRat 9 10)) = .ok (false, 0) ∧
    (evaluateBettingRules mdC4 rulesC4
      (mlPredict false 55 [] (.ok (mkRat 9 10)))).is_suitable = false :=
  ⟨by decide, rfl, by decide⟩

theorem applyML_divisor (r : EvalResult) (ml : Except Unit (Bool × ℚ)) :
    (applyML r ml).divisor = r.divisor := by
  cases ml with
  | error e => rfl
  | ok p =>
    rcases p with ⟨mls, mlc⟩
    simp only [applyML]
    split_ifs <;> rfl

theorem evalStep_divisor_invariant (md : MatchData) (r : EvalResult)
    (rule : Rule) : (evalStep md r rule).divisor = r.divisor := by
  cases rule with
  | classR c =>
    cases c <;> simp only [evalStep] <;> split_ifs <;> rfl
  | dictR d =>
    cases d <;> simp only [evalStep]
    all_goals repeat' split
    all_goals rfl

theorem evalRules_divisor_none (md : MatchData) (rules : List Rule) :
    (evalRules md rules).divisor = none := by
  unfold evalRules
  suffices h : ∀ (rs : List Rule) (r : EvalResult),
      (rs.foldl (evalStep md) r).divisor = r.divisor by
    exact h rules initResult
  intro rs
  induction rs with
  | nil => intro r; rfl
  | cons x xs ih =>
    intro r
    rw [List.foldl_cons, ih, evalStep_divisor_invariant]

theorem evaluateBettingRules_divisor_none (md : MatchData)
    (rules : List Rule) (ml : Except Unit (Bool × ℚ)) :
    (evaluateBettingRules md rules ml).divisor = none := by
  have h := evalRules_divisor_none md rules
  have h2 : applyDivisorAdjust (evalRules md rules) = evalRules md rules := by
    unfold applyDivisorAdjust
    rw [h]
  unfold evaluateBettingRules rulesVerdict
  rw [h2, applyML_divisor, h]

/-- Match data for the divisor scenario. -/
def mdC6 : MatchData :=
  ⟨pys "m6", pys "H", pys "A", pys "1 - 0", 55, none, none, none⟩

/-- An active dict divisor rule (divisor 8) plus a 0.5 fixed stake. -/
def rulesC6d : List Rule :=
  [.dictR (.divisorD true 8), .dictR (.stakeD true (mkRat 1 2) (pys "fixed"))]

/-- The class-based variant of the same rule set. -/
def rulesC6c : List Rule :=
  [.classR (.divisorC true 8 none none),
    .classR (.stakeC true (mkRat 1 2) (pys "fixed"))]

/-- C6: the divisor adjustment is dead code.  `results["divisor"]` is
initialized to `None` and never assigned by any rule branch, so with an
active divisor rule (dict- or class-based) and a positive fixed stake the
returned verdict keeps stake 0.5 and strategy `"fixed"` — the claimed
division by 8 and switch to `"percentage"` never happen. -/
theorem C6_divisor_dead_code :
    (∀ (md : MatchData) (rules : List Rule) (ml : Except Unit (Bool × ℚ)),
      (evaluateBettingRules md rules ml).divisor = none) ∧
    (evaluateBettingRules mdC6 rulesC6d (.error ())).stake = mkRat 1 2 ∧
    (evaluateBettingRules mdC6 rulesC6d (.error ())).stake_strategy = pys "fixed" ∧
    (evaluateBettingRules mdC6 rulesC6c (.error ())).stake = mkRat 1 2 ∧
    (evaluateBettingRules mdC6 rulesC6c (.error ())).stake_strategy = pys "fixed" :=
  ⟨evaluateBettingRules_divisor_none, by decide, by decide, by decide, by decide⟩

/-- A bookmaker map with two quoted prices and one non-numeric entry. -/
def bmC7 : BookMap :=
  [(pys "bookieA", .str (pys "1.03")), (pys "bookieB", .str (pys "1.05")),
    (pys "bookieC", .other)]

/-- A nested under-odds map quoting the 4.5 line. -/
def underC7 : List (PyStr × OddsInfo) := [(pys "4.5", ⟨some bmC7⟩)]

/-- The same structure as the Feature Normalizer receives it (with a BTTS
market that should also be extracted). -/
def mdpOddsC7 : MDPOdds :=
  ⟨none, some underC7, some (some [(pys "bookieA", .str (pys "1.9"))], none)⟩

/-- The same structure as `GoalsRule._extract_odds` receives it. -/
def oddsC7 : OddsData := ⟨[], some underC7⟩

/-- C7: on a nested `overUnderOdds` structure the Feature Normalizer's
`_extract_odds` loses every market — the undefined name `processed_data`
raises a `NameError` that aborts extraction (including the unrelated BTTS
market) — while `GoalsRule._extract_odds` extracts the best numeric
bookmaker price per line, skipping the non-numeric entry, as the claim
describes. -/
theorem C7_nested_extraction_lost :
    mdpExtractOdds mdpOddsC7 = [] ∧
    goalsExtractOdds oddsC7 = [(pys "under_4.5", mkRat 21 20)] := by
  decide

/-! ### Claim C10: the goal-line buffer market key -/

theorem natToStr_no_dot (n : ℕ) : ∀ c ∈ natToStr n, c ≠ '.' := by
  intro c hc
  rcases mem_natToStr_exists_digit hc with ⟨d, hd, rfl⟩
  interval_cases d <;> decide

theorem count_dot_natToStr (n : ℕ) : (natToStr n).count '.' = 0 :=
  List.count_eq_zero.mpr (fun hmem => natToStr_no_dot n '.' hmem rfl)

theorem count_dot_fmtHalf (v : ℤ) : (fmtHalf v).count '.' = 1 := by
  unfold fmtHalf
  split
  · rw [List.count_append, count_dot_natToStr]
    rfl
  · rw [List.count_append, List.count_cons, count_dot_natToStr]
    rfl

/-- With a half-valued buffer the built market key carries two dots, so
it can never equal a key of the form `under_{N}.5`. -/
theorem marketKey_halfB_ne (total : ℤ) (k n : ℕ) :
    marketKey total (.halfB k) ≠ pys "under_" ++ natToStr n ++ pys ".5" := by
  intro h
  have hc := congrArg (fun l => List.count '.' l) h
  simp only [marketKey, fmtTargetLine, List.count_append, count_dot_fmtHalf,
    count_dot_natToStr] at hc
  rw [show (pys "under_").count '.' = 0 from rfl,
    show (pys ".5").count '.' = 1 from rfl] at hc
  omega

theorem lookupKey_none {α : Type} {m : List (PyStr × α)} {k : PyStr}
    (h : ∀ kv ∈ m, kv.1 ≠ k) : lookupKey m k = none := by
  induction m with
  | nil => rfl
  | cons p rest ih =>
    rw [lookupKey, if_neg (h p (List.mem_cons_self p rest))]
    exact ih (fun kv hkv => h kv (List.mem_cons_of_mem p hkv))

theorem mem_filterMap_keys {α : Type} {f : PyStr × α → Option (PyStr × ℚ)}
    (hf : ∀ p q, f p = some q → q.1 = p.1) {l : List (PyStr × α)}
    {kv : PyStr × ℚ} (hmem : kv ∈ l.filterMap f) : ∃ p ∈ l, kv.1 = p.1 := by
  rcases List.mem_filterMap.mp hmem with ⟨p, hp, hfp⟩
  exact ⟨p, hp, hf p kv hfp⟩

/-- Without a nested under map, every key produced by
`GoalsRule._extract_odds` is a key of the flat entries. -/
theorem goalsExtractOdds_key_flat {od : OddsData} (hum : od.underMap = none)
    {kv : PyStr × ℚ} (hkv : kv ∈ goalsExtractOdds od) :
    ∃ p ∈ od.entries, kv.1 = p.1 := by
  unfold goalsExtractOdds at hkv
  rw [hum] at hkv
  simp only [List.nil_append] at hkv
  split at hkv
  · refine mem_filterMap_keys ?_ hkv
    rintro ⟨pk, pv⟩ q hq
    dsimp only at hq
    split at hq
    · cases pv with
      | num x =>
        rcases Option.some.inj hq with rfl
        rfl
      | str s =>
        rcases Option.map_eq_some'.mp hq with ⟨x, _, hx⟩
        rw [← hx]
      | other => exact absurd hq (by simp)
    · exact absurd hq (by simp)
  · refine mem_filterMap_keys ?_ hkv
    rintro ⟨pk, pv⟩ q hq
    cases pv with
    | num x =>
      dsimp only at hq
      split at hq
      · rcases Option.some.inj hq with rfl
        rfl
      · exact absurd hq (by simp)
    | str s => exact absurd hq (by simp)
    | other => exact absurd hq (by simp)

/-- Under the default flat odds shape, the buffered market key resolves
to nothing. -/
theorem lookup_market_none {od : OddsData} (hum : od.underMap = none)
    (hkeys : ∀ kv ∈ od.entries,
      ∃ n : ℕ, kv.1 = pys "under_" ++ natToStr n ++ pys ".5")
    (total : ℤ) (k : ℕ) :
    lookupKey (goalsExtractOdds od) (marketKey total (.halfB k)) = none := by
  apply lookupKey_none
  intro kv hkv
  rcases goalsExtractOdds_key_flat hum hkv with ⟨p, hp, hk1⟩
  rcases hkeys p hp with ⟨n, hn⟩
  rw [hk1, hn]
  intro he
  exact marketKey_halfB_ne total k n he.symm

theorem goalsOddsOk_true {p : GoalsParams} {md : MatchData} {od : OddsData}
    {k : ℕ} (hb : p.buffer = .halfB k) (hmd : md.odds = some od)
    (hum : od.underMap = none)
    (hkeys : ∀ kv ∈ od.entries,
      ∃ n : ℕ, kv.1 = pys "under_" ++ natToStr n ++ pys ".5")
    (total : ℤ) : goalsOddsOk p md total = true := by
  unfold goalsOddsOk
  rw [hmd]
  dsimp only
  rw [hb, lookup_market_none hum hkeys total k]

theorem natDigitsLE_succ (n : ℕ) (h : 0 < n) :
    natDigitsLE n = n % 10 :: natDigitsLE (n / 10) := by
  match n, h with
  | m + 1, _ => rw [natDigitsLE]

theorem natDigitsLE_zero : natDigitsLE 0 = [] := by rw [natDigitsLE]

theorem natToStr_four : natToStr 4 = ['4'] := by
  unfold natToStr
  rw [if_neg (by norm_num), natDigitsLE_succ 4 (by norm_num),
    show (4 : ℕ) % 10 = 4 from rfl, show (4 : ℕ) / 10 = 0 from rfl,
    natDigitsLE_zero]
  rfl

theorem marketKey_two_halfB_two : marketKey 2 (.halfB 2) = pys "under_4.5.5" := by
  unfold marketKey fmtTargetLine fmtHalf
  dsimp only
  rw [if_pos (by norm_num), show ((2 : ℤ) + (2 : ℕ)).toNat = 4 from rfl,
    natToStr_four]
  rfl

theorem goalsRuleEval_bounds_irrelevant (p : GoalsParams) (q1 q2 : ℚ)
    (md : MatchData) (od : OddsData) (k : ℕ)
    (hb : p.buffer = .halfB k) (hmd : md.odds = some od)
    (hum : od.underMap = none)
    (hkeys : ∀ kv ∈ od.entries,
      ∃ n : ℕ, kv.1 = pys "under_" ++ natToStr n ++ pys ".5") :
    goalsRuleEval { p with minOdds := q1, maxOdds := q2 } md
      = goalsRuleEval p md := by
  unfold goalsRuleEval
  by_cases ha : p.active = false
  · rw [if_pos ha,
      if_pos (show ({ p with minOdds := q1, maxOdds := q2 } :
        GoalsParams).active = false from ha)]
  · rw [if_neg ha,
      if_neg (show ¬({ p with minOdds := q1, maxOdds := q2 } :
        GoalsParams).active = false from ha)]
    cases hsc : scoreParseStrict md.score with
    | none => rfl
    | some pr =>
      rcases pr with ⟨h, a⟩
      dsimp only
      by_cases hf : goalsFiltersFail p md = true
      · rw [if_pos (show goalsFiltersFail
            { p with minOdds := q1, maxOdds := q2 } md = true from hf),
          if_pos hf]
      · rw [if_neg (show ¬goalsFiltersFail
            { p with minOdds := q1, maxOdds := q2 } md = true from hf),
          if_neg hf]
        by_cases hr : h + a < p.minGoals ∨ h + a > p.maxGoals
        · rw [if_pos hr, if_pos hr]
        · rw [if_neg hr, if_neg hr,
            goalsOddsOk_true (p := { p with minOdds := q1, maxOdds := q2 })
              hb hmd hum hkeys,
            goalsOddsOk_true hb hmd hum hkeys]

theorem goalsRuleEval_goal_count_only (p : GoalsParams) (md : MatchData)
    (od : OddsData) (k : ℕ) (h a : ℤ)
    (hb : p.buffer = .halfB k) (hmf : p.matchF = none)
    (hc : p.country = none) (hl : p.league = none) (hac : p.active = true)
    (hmd : md.odds = some od) (hum : od.underMap = none)
    (hkeys : ∀ kv ∈ od.entries,
      ∃ n : ℕ, kv.1 = pys "under_" ++ natToStr n ++ pys ".5")
    (hsc : scoreParseStrict md.score = some (h, a)) :
    goalsRuleEval p md = decide (p.minGoals ≤ h + a ∧ h + a ≤ p.maxGoals) := by
  unfold goalsRuleEval
  rw [hac, if_neg (by simp), hsc]
  dsimp only
  have hff : goalsFiltersFail p md = false := by
    unfold goalsFiltersFail
    rw [hl, hc, hmf]
    rfl
  rw [hff]
  simp only [Bool.false_eq_true, if_false]
  rw [goalsOddsOk_true hb hmd hum hkeys]
  by_cases hr : h + a < p.minGoals ∨ h + a > p.maxGoals
  · rw [if_pos hr]
    have hx : ¬(p.minGoals ≤ h + a ∧ h + a ≤ p.maxGoals) := by omega
    simp [hx]
  · rw [if_neg hr]
    have hx : p.minGoals ≤ h + a ∧ h + a ≤ p.maxGoals := by omega
    simp [hx]

theorem evalStep_goalsD_bounds_irrelevant (md : MatchData) (r : EvalResult)
    (od : OddsData) (k : ℕ) (active : Bool) (minG maxG : ℤ) (q1 q2 : ℚ)
    (hmd : md.odds = some od) (hum : od.underMap = none)
    (hkeys : ∀ kv ∈ od.entries,
      ∃ n : ℕ, kv.1 = pys "under_" ++ natToStr n ++ pys ".5") :
    evalStep md r (.dictR (.goalsD active minG maxG (.halfB k) (some (q1, q2))))
      = evalStep md r (.dictR (.goalsD active minG maxG (.halfB k) none)) := by
  have hdm : ∀ total : ℤ,
      dictMarketOdds od (marketKey total (.halfB k)) = some 0 := by
    intro total
    unfold dictMarketOdds
    rw [lookupKey_none (fun kv hkv => by
        rcases hkeys kv hkv with ⟨n, hn⟩
        rw [hn]
        intro he
        exact marketKey_halfB_ne total k n he.symm),
      hum]
  simp only [evalStep]
  by_cases ha : active = false
  · rw [if_pos ha, if_pos ha]
  · rw [if_neg ha, if_neg ha, hmd]
    dsimp only
    rw [hdm]
    dsimp only
    rw [if_neg (by norm_num)]

/-- C10: with a non-integer (half-valued) `min_goal_line_buffer` — the
repo default 2.5 included — the goals rule builds the market key
`f"under_{total + buffer}.5"`, e.g. `"under_4.5.5"` for 2 goals; that key
carries two dots and can never equal an extracted market key of the form
`"under_{N}.5"`, so under the default flat odds shape the configured
`[min_odds, max_odds]` bounds are never enforced (class- and dict-based
paths alike) and the rule is decided by the goal count alone. -/
theorem C10_goal_line_market_mismatch :
    marketKey 2 (.halfB 2) = pys "under_4.5.5" ∧
    (∀ (total : ℤ) (k n : ℕ),
      marketKey total (.halfB k) ≠ pys "under_" ++ natToStr n ++ pys ".5") ∧
    (∀ (p : GoalsParams) (q1 q2 : ℚ) (md : MatchData) (od : OddsData) (k : ℕ),
      p.buffer = .halfB k → md.odds = some od → od.underMap = none →
      (∀ kv ∈ od.entries,
        ∃ n : ℕ, kv.1 = pys "under_" ++ natToStr n ++ pys ".5") →
      goalsRuleEval { p with minOdds := q1, maxOdds := q2 } md
        = goalsRuleEval p md) ∧
    (∀ (p : GoalsParams) (md : MatchData) (od : OddsData) (k : ℕ) (h a : ℤ),
      p.buffer = .halfB k → p.matchF = none → p.country = none →
      p.league = none → p.active = true →
      md.odds = some od → od.underMap = none →
      (∀ kv ∈ od.entries,
        ∃ n : ℕ, kv.1 = pys "under_" ++ natToStr n ++ pys ".5") →
      scoreParseStrict md.score = some (h, a) →
      goalsRuleEval p md
        = decide (p.minGoals ≤ h + a ∧ h + a ≤ p.maxGoals)) ∧
    (∀ (md : MatchData) (r : EvalResult) (od : OddsData) (k : ℕ)
        (active : Bool) (minG maxG : ℤ) (q1 q2 : ℚ),
      md.odds = some od → od.underMap = none →
      (∀ kv ∈ od.entries,
        ∃ n : ℕ, kv.1 = pys "under_" ++ natToStr n ++ pys ".5") →
      evalStep md r
          (.dictR (.goalsD active minG maxG (.halfB k) (some (q1, q2))))
        = evalStep md r (.dictR (.goalsD active minG maxG (.halfB k) none))) :=
  ⟨marketKey_two_halfB_two, marketKey_halfB_ne,
    fun p q1 q2 md od k hb hmd hum hkeys =>
      goalsRuleEval_bounds_irrelevant p q1 q2 md od k hb hmd hum hkeys,
    fun p md od k h a hb hmf hc hl hac hmd hum hkeys hsc =>
      goalsRuleEval_goal_count_only p md od k h a hb hmf hc hl hac hmd hum
        hkeys hsc,
    fun md r od k active minG maxG q1 q2 hmd hum hkeys =>
      evalStep_goalsD_bounds_irrelevant md r od k active minG maxG q1 q2
        hmd hum hkeys⟩

/-- Witness for C10: the dict-path independence applied to a concrete
match with an empty flat odds dict. -/
theorem C10_goal_line_market_mismatch_witness :
    evalStep ⟨pys "m", pys "h", pys "a", pys "1 - 0", 55, none, none,
        some ⟨[], none⟩⟩ initResult
        (.dictR (.goalsD true 1 3 (.halfB 2)
          (some (mkRat 101 100, mkRat 104 100))))
      = evalStep ⟨pys "m", pys "h", pys "a", pys "1 - 0", 55, none, none,
        some ⟨[], none⟩⟩ initResult
        (.dictR (.goalsD true 1 3 (.halfB 2) none)) :=
  C10_goal_line_market_mismatch.2.2.2.2
    ⟨pys "m", pys "h", pys "a", pys "1 - 0", 55, none, none, some ⟨[], none⟩⟩
    initResult ⟨[], none⟩ 2 true 1 3 (mkRat 101 100) (mkRat 104 100)
    rfl rfl (by simp)

/-! ### Bet Coordinator and Cash-Out Monitor

Embedding of `RedisTracker.track_bet` / `check_for_canceled_goals`
(src/src/redis_tracker.py, lines 55-83 and 173-218) and
`UnderXInPlayStrategy.track_bet_signal` /
`check_for_canceled_goals_and_act` (src/scripts/under_x_inplay.py, lines
814-918), plus `monitor_high_risk_games`
(src/scripts/monitor_high_risk_games.py, lines 132-231). -/

/-- The persisted bet record (`bet:{match_id}` JSON): the bet signal's
market, the score at bet time (after `.get("score", "0 - 0")`), and the
minute at bet time. -/
structure BetDetailsR where
  betSignalMarket : PyStr
  score : PyStr
  minute : ℤ
deriving DecidableEq

/-- `RedisTracker.check_for_canceled_goals`: no record → `(False, None)`;
unparseable scores → `(False, details)`; a drop in total goals →
`(True, details)`. -/
def check_for_canceled_goals (bd : Option BetDetailsR)
    (currentScore : PyStr) : Bool × Option BetDetailsR :=
  match bd with
  | none => (false, none)
  | some d =>
    match scoreParseStrict d.score, scoreParseStrict currentScore with
    | some (bh, ba), some (ch, ca) =>
      if ch + ca < bh + ba then (true, some d) else (false, some d)
    | _, _ => (false, some d)

/-- An emergency cash-out signal (the fields the claims are about). -/
structure CashoutSignalR where
  market : PyStr
  reason : PyStr
  urgency : PyStr
deriving DecidableEq

/-- `UnderXInPlayStrategy.check_for_canceled_goals_and_act`: a bet must
be on record (document flag or Redis); the tracker must report a
cancellation; and then the signal is only sent when the current total is
exactly 0 while the bet-time total was positive (lines 889-904,
"Specifically checking for case where total goals is now 0"). -/
def check_for_canceled_goals_and_act (docBet : Bool)
    (stored : Option BetDetailsR) (currentScore : PyStr)
    (currentMinute : ℤ) : Option CashoutSignalR :=
  if (docBet || stored.isSome) = false then none
  else
    match check_for_canceled_goals stored currentScore with
    | (true, some d) =>
      match scoreParseStrict d.score, scoreParseStrict currentScore with
      | some (bh, ba), some (ch, ca) =>
        if ch + ca = 0 ∧ bh + ba > 0 then
          some ⟨d.betSignalMarket, pys "goal_canceled_emergency", pys "high"⟩
        else none
      | _, _ => none
    | _ => none

theorem scoreParseStrict_fmt (h a : ℕ) :
    scoreParseStrict (fmtScore h a) = some ((h : ℤ), (a : ℤ)) := by
  unfold scoreParseStrict fmtScore
  rw [List.append_assoc,
    show pys " - " ++ natToStr a = ' ' :: '-' :: ' ' :: natToStr a from rfl,
    splitDashSp_sep _ _ (natToStr_no_space h),
    splitDashSp_no_space (natToStr_no_space a)]
  dsimp only
  rw [pyParseInt_natToStr, pyParseInt_natToStr]

/-- C1 counterexample: bet at 1-1 (total 2), now 1-0 (total 1 < 2): the
tracker reports a canceled goal, but no emergency signal is emitted
because the current total is not 0. -/
theorem C1_partial_cancellation_no_signal :
    scoreParseStrict (pys "1 - 1") = some (1, 1) ∧
    scoreParseStrict (pys "1 - 0") = some (1, 0) ∧
    check_for_canceled_goals (some ⟨pys "under_5.5", pys "1 - 1", 55⟩)
        (pys "1 - 0")
      = (true, some ⟨pys "under_5.5", pys "1 - 1", 55⟩) ∧
    check_for_canceled_goals_and_act false
        (some ⟨pys "under_5.5", pys "1 - 1", 55⟩) (pys "1 - 0") 60 = none := by
  decide

/-- C1 (amended): with a tracked bet, the emergency signal
`goal_canceled_emergency`/`high` fires exactly when the current total is
0 and the bet-time total was positive — regardless of the current
minute; a partial drop (0 < current total < bet total) emits nothing. -/
theorem C1_goal_cancellation_amended :
    (∀ (docBet : Bool) (mkt : PyStr) (bh ba : ℕ) (m minute : ℤ),
      0 < bh + ba →
      check_for_canceled_goals_and_act docBet
          (some ⟨mkt, fmtScore bh ba, m⟩) (pys "0 - 0") minute
        = some ⟨mkt, pys "goal_canceled_emergency", pys "high"⟩) ∧
    (∀ (docBet : Bool) (mkt : PyStr) (bh ba ch ca : ℕ) (m minute : ℤ),
      0 < ch + ca → ch + ca < bh + ba →
      check_for_canceled_goals_and_act docBet
          (some ⟨mkt, fmtScore bh ba, m⟩) (fmtScore ch ca) minute = none) := by
  constructor
  · intro docBet mkt bh ba m minute hpos
    unfold check_for_canceled_goals_and_act
    rw [if_neg (by simp)]
    unfold check_for_canceled_goals
    dsimp only
    rw [scoreParseStrict_fmt bh ba,
      show scoreParseStrict (pys "0 - 0") = some (0, 0) from by decide]
    dsimp only
    rw [if_pos (by push_cast; omega)]
    dsimp only
    rw [scoreParseStrict_fmt bh ba]
    dsimp only
    rw [if_pos (by refine ⟨by norm_num, ?_⟩; omega)]
  · intro docBet mkt bh ba ch ca m minute hpos hlt
    unfold check_for_canceled_goals_and_act
    rw [if_neg (by simp)]
    unfold check_for_canceled_goals
    dsimp only
    rw [scoreParseStrict_fmt bh ba, scoreParseStrict_fmt ch ca]
    dsimp only
    rw [if_pos (by omega)]
    dsimp only
    rw [scoreParseStrict_fmt bh ba]
    dsimp only
    rw [if_neg (by omega)]

/-- Witness for C1 (amended): bet at 1-1, now 0-0, minute 80. -/
theorem C1_goal_cancellation_amended_witness :
    check_for_canceled_goals_and_act false
        (some ⟨pys "under_5.5", fmtScore 1 1, 55⟩) (pys "0 - 0") 80
      = some ⟨pys "under_5.5", pys "goal_canceled_emergency", pys "high"⟩ :=
  C1_goal_cancellation_amended.1 false (pys "under_5.5") 1 1 55 80
    (by norm_num)

/-- `parse_score_str` (monitor_high_risk_games.py, lines 132-140): empty,
`"HT"` and `"FT"` scores parse to `(None, None)`; otherwise split on
`"-"` into exactly two `int(...strip())` pieces. -/
def parseScoreStr (s : Option PyStr) : Option ℤ × Option ℤ :=
  match s with
  | none => (none, none)
  | some t =>
    if t = [] ∨ t = pys "HT" ∨ t = pys "FT" then (none, none)
    else
      match splitChar '-' t with
      | [a, b] =>
        match pyParseInt a, pyParseInt b with
        | some x, some y => (some x, some y)
        | _, _ => (none, none)
      | _ => (none, none)

/-- Python `int(v)` on a minute value: floats truncate toward zero,
strings parse, anything else raises (→ `minute_val = None`). -/
def pyIntCast (v : PyVal) : Option ℤ :=
  match v with
  | .num q => if 0 ≤ q then some ⌊q⌋ else some (-⌊-q⌋)
  | .str s => pyParseInt s
  | .other => none

/-- `minute_val is not None and minute_val < b`. -/
def minuteLtB (mv : Option ℤ) (b : ℤ) : Bool :=
  match mv with
  | some m => decide (m < b)
  | none => false

/-- `minute_val is not None and lo <= minute_val < hi`. -/
def minuteInB (mv : Option ℤ) (lo hi : ℤ) : Bool :=
  match mv with
  | some m => decide (lo ≤ m ∧ m < hi)
  | none => false

/-- The per-match state the monitor reads: the MongoDB `cashout` flag,
the Redis bet score (`homeScore`/`awayScore`, possibly missing), the
MongoDB live score string and minute value. -/
structure MonitorInput where
  cashoutDone : Bool
  betHome : Option ℤ
  betAway : Option ℤ
  mongoScore : Option PyStr
  mongoMinute : Option PyVal

/-- The goal-detection core of `monitor_high_risk_games` (lines 198-231):
skip if already cashed out; parse the live score; when it differs from
the bet score and the live total is larger, compute `goals_scored` and
fire exactly one of the three signals — note the source compares
`goals_scored == 2` and `goals_scored == 3` with equality. -/
def monitorStep (inp : MonitorInput) : Option PyStr :=
  if inp.cashoutDone = true then none
  else
    match parseScoreStr inp.mongoScore with
    | (some mh, some ma) =>
      if inp.betHome ≠ some mh ∨ inp.betAway ≠ some ma then
        if inp.betHome.getD 0 + inp.betAway.getD 0 < mh + ma then
          let goals := mh + ma - (inp.betHome.getD 0 + inp.betAway.getD 0)
          let mv := inp.mongoMinute.bind pyIntCast
          if goals = 2 ∧ minuteLtB mv 70 = true then
            some (pys "2_goals_before_70")
          else if goals = 3 ∧ minuteLtB mv 82 = true then
            some (pys "3rd_goal_before_82")
          else if goals = 3 ∧ minuteInB mv 82 85 = true then
            some (pys "3rd_goal_after_82_before_85")
          else none
        else none
      else none
    | _ => none

theorem parseScoreStr_fmt (mh ma : ℕ) :
    parseScoreStr (some (natToStr mh ++ '-' :: natToStr ma))
      = (some (mh : ℤ), some (ma : ℤ)) := by
  unfold parseScoreStr
  dsimp only
  rcases natToStr_head_digit mh with ⟨c, cs, hl, hd⟩
  rw [if_neg (by
    rw [hl, List.cons_append]
    refine not_or.mpr ⟨by simp, not_or.mpr ⟨?_, ?_⟩⟩
    · rw [show pys "HT" = 'H' :: pys "T" from rfl]
      exact ne_cons_of_head_digit hd (by decide)
    · rw [show pys "FT" = 'F' :: pys "T" from rfl]
      exact ne_cons_of_head_digit hd (by decide))]
  rw [splitChar_sep '-' _ _ (natToStr_no_dash mh),
    splitChar_no_sep (natToStr_no_dash ma)]
  dsimp only
  rw [pyParseInt_natToStr, pyParseInt_natToStr]

/-- C2 counterexample: four new goals (0-0 → 4-0) at minute 60 fire no
signal at all, although the claim's `goals_scored ≥ 2 ∧ minute < 70`
clause demands `"2_goals_before_70"`. -/
theorem C2_four_goals_no_signal :
    monitorStep ⟨false, some 0, some 0, some (pys "4-0"),
      some (.str (pys "60"))⟩ = none := by
  decide

theorem monitorStep_eval (bh ba mh ma mi : ℕ)
    (hlt : (bh : ℤ) + ba < (mh : ℤ) + ma) :
    monitorStep ⟨false, some bh, some ba,
        some (natToStr mh ++ '-' :: natToStr ma), some (.str (natToStr mi))⟩
      = (if ((mh : ℤ) + ma) - ((bh : ℤ) + ba) = 2 ∧ (mi : ℤ) < 70 then
          some (pys "2_goals_before_70")
        else if ((mh : ℤ) + ma) - ((bh : ℤ) + ba) = 3 ∧ (mi : ℤ) < 82 then
          some (pys "3rd_goal_before_82")
        else if ((mh : ℤ) + ma) - ((bh : ℤ) + ba) = 3 ∧
            (82 ≤ (mi : ℤ) ∧ (mi : ℤ) < 85) then
          some (pys "3rd_goal_after_82_before_85")
        else none) := by
  unfold monitorStep
  rw [if_neg (by simp)]
  rw [parseScoreStr_fmt mh ma]
  dsimp only
  rw [if_pos (by
    by_contra hcon
    push_neg at hcon
    rcases hcon with ⟨h1, h2⟩
    have h1' := Option.some.inj h1
    have h2' := Option.some.inj h2
    omega)]
  rw [if_pos (by
    show (some ((bh : ℤ))).getD 0 + (some ((ba : ℤ))).getD 0 < _
    simpa using hlt)]
  dsimp only [Option.getD, Option.bind]
  rw [show pyIntCast (.str (natToStr mi)) = some (mi : ℤ) from
    pyParseInt_natToStr mi]
  simp only [minuteLtB, minuteInB, decide_eq_true_eq]

/-- C2 (amended): the monitor's threshold table uses exact equality on
`goals_scored`: two new goals before minute 70 fire
`"2_goals_before_70"`; exactly three new goals fire
`"3rd_goal_before_82"` before 82 or `"3rd_goal_after_82_before_85"` in
[82, 85); any other count — four or more new goals included — fires
nothing, as do 2 goals at minute ≥ 70 and 3 goals at minute ≥ 85. -/
theorem C2_cashout_table_amended (bh ba mh ma mi : ℕ)
    (hlt : (bh : ℤ) + ba < (mh : ℤ) + ma) :
    (((mh : ℤ) + ma) - ((bh : ℤ) + ba) = 2 → (mi : ℤ) < 70 →
      monitorStep ⟨false, some bh, some ba,
          some (natToStr mh ++ '-' :: natToStr ma),
          some (.str (natToStr mi))⟩ = some (pys "2_goals_before_70")) ∧
    (((mh : ℤ) + ma) - ((bh : ℤ) + ba) = 3 → (mi : ℤ) < 82 →
      monitorStep ⟨false, some bh, some ba,
          some (natToStr mh ++ '-' :: natToStr ma),
          some (.str (natToStr mi))⟩ = some (pys "3rd_goal_before_82")) ∧
    (((mh : ℤ) + ma) - ((bh : ℤ) + ba) = 3 → 82 ≤ (mi : ℤ) → (mi : ℤ) < 85 →
      monitorStep ⟨false, some bh, some ba,
          some (natToStr mh ++ '-' :: natToStr ma),
          some (.str (natToStr mi))⟩
        = some (pys "3rd_goal_after_82_before_85")) ∧
    (((mh : ℤ) + ma) - ((bh : ℤ) + ba) ≠ 2 →
      ((mh : ℤ) + ma) - ((bh : ℤ) + ba) ≠ 3 →
      monitorStep ⟨false, some bh, some ba,
          some (natToStr mh ++ '-' :: natToStr ma),
          some (.str (natToStr mi))⟩ = none) ∧
    (((mh : ℤ) + ma) - ((bh : ℤ) + ba) = 2 → 70 ≤ (mi : ℤ) →
      monitorStep ⟨false, some bh, some ba,
          some (natToStr mh ++ '-' :: natToStr ma),
          some (.str (natToStr mi))⟩ = none) ∧
    (((mh : ℤ) + ma) - ((bh : ℤ) + ba) = 3 → 85 ≤ (mi : ℤ) →
      monitorStep ⟨false, some bh, some ba,
          some (natToStr mh ++ '-' :: natToStr ma),
          some (.str (natToStr mi))⟩ = none) := by
  rw [monitorStep_eval bh ba mh ma mi hlt]
  refine ⟨?_, ?_, ?_, ?_, ?_, ?_⟩
  · intro h2 h70
    rw [if_pos ⟨h2, h70⟩]
  · intro h3 h82
    rw [if_neg (by rintro ⟨hc, _⟩; omega), if_pos ⟨h3, h82⟩]
  · intro h3 hlo hhi
    rw [if_neg (by rintro ⟨hc, _⟩; omega),
      if_neg (by rintro ⟨_, hc⟩; omega), if_pos ⟨h3, hlo, hhi⟩]
  · intro hn2 hn3
    rw [if_neg (by rintro ⟨hc, _⟩; omega),
      if_neg (by rintro ⟨hc, _⟩; omega),
      if_neg (by rintro ⟨hc, _⟩; omega)]
  · intro h2 h70
    rw [if_neg (by rintro ⟨_, hc⟩; omega),
      if_neg (by rintro ⟨hc, _⟩; omega),
      if_neg (by rintro ⟨hc, _⟩; omega)]
  · intro h3 h85
    rw [if_neg (by rintro ⟨hc, _⟩; omega),
      if_neg (by rintro ⟨_, hc⟩; omega),
      if_neg (by rintro ⟨_, _, hc⟩; omega)]

/-- Witness for C2 (amended): 0-0 → 0-2 at minute 69 fires
`"2_goals_before_70"`. -/
theorem C2_cashout_table_amended_witness :
    monitorStep ⟨false, some 0, some 0,
        some (natToStr 0 ++ '-' :: natToStr 2), some (.str (natToStr 69))⟩
      = some (pys "2_goals_before_70") :=
  (C2_cashout_table_amended 0 0 0 2 69 (by norm_num)).1 (by norm_num)
    (by norm_num)

/-! ### Bet Coordinator (claim C5) -/

/-- The per-event coordinator state: the `bet:{match_id}` record and the
log of emitted bet signals (identified by their market). -/
structure CoordState where
  betRecord : Option BetDetailsR
  signals : List PyStr
deriving DecidableEq

/-- One bet placement as the code performs it when a match is suitable
and priced: `track_bet_signal` → `RedisTracker.track_bet`, which issues
an unconditional `SET bet:{match_id} ... EX 3600` (overwriting any
existing record) and returns `True`, while the caller publishes the bet
signal.  No step reads the existing record first — there is no
place-once guard anywhere on this path. -/
def placeBet (st : CoordState) (d : BetDetailsR) : CoordState × Bool :=
  ({ betRecord := some d, signals := st.signals ++ [d.betSignalMarket] }, true)

/-- C5 counterexample: placing twice for the same event while the first
record is still live leaves two emitted bet signals, not one, and the
record has been replaced by the second placement's details. -/
theorem C5_double_placement_two_signals :
    ((placeBet (placeBet ⟨none, []⟩
        ⟨pys "under_5.5", pys "1 - 1", 55⟩).1
        ⟨pys "under_5.5", pys "2 - 1", 58⟩).1).signals.length = 2 ∧
    ((placeBet (placeBet ⟨none, []⟩
        ⟨pys "under_5.5", pys "1 - 1", 55⟩).1
        ⟨pys "under_5.5", pys "2 - 1", 58⟩).1).betRecord
      = some ⟨pys "under_5.5", pys "2 - 1", 58⟩ ∧
    ¬((placeBet (placeBet ⟨none, []⟩
        ⟨pys "under_5.5", pys "1 - 1", 55⟩).1
        ⟨pys "under_5.5", pys "2 - 1", 58⟩).1).signals.length = 1 := by
  decide

/-- C5 (amended): a second placement is not an error (it reports
success), keeps a single record per event only because the `SET`
overwrites the same key — the stored record is the second placement's,
not the first's — and emits a second bet signal. -/
theorem C5_second_placement_overwrites (st : CoordState)
    (d1 d2 : BetDetailsR) :
    (placeBet (placeBet st d1).1 d2).1.betRecord = some d2 ∧
    (placeBet (placeBet st d1).1 d2).1.signals
      = st.signals ++ [d1.betSignalMarket] ++ [d2.betSignalMarket] ∧
    (placeBet (placeBet st d1).1 d2).2 = true :=
  ⟨rfl, rfl, rfl⟩

end FootballML
